import Mathlib

/-! # gminiorgan: verification of the additive-synthesis organ engine (`organ.c`)

A shallow embedding of the synthesis and voice-management core of `organ.c`
(oscillator, voice, arbiter, organ, reverb line, MIDI byte parser) together
with theorems about it.

Conventions of the embedding.

* `float` values are elements of an arbitrary linearly ordered field `α`
  (exact arithmetic); the C math library (`cos`, `sin`, `pow`) is a parameter
  (`Libm`). Every definition is computable once `α` and `Libm` are (take `ℚ`).
* `int` values are `Int`; the slot indices `0..9` kept by the arbiter and the
  loop counters are `Nat`.
* A C array is a `List` (or a function on `Fin n` when it is only accessed
  through constant indices or a loop bounded by its declared size). An access
  whose index can leave the array yields a `Fault` instead of a value: the
  C program has undefined behaviour there.
* Storage that a constructor leaves uninitialised is what the constructor
  receives as its argument (the previous content of the memory).
-/

namespace GMiniOrgan

/-- Undefined behaviour the program can run into: an array indexed outside its
bounds, or an integer remainder by zero. -/
inductive Fault where
  /-- `voices[i]` with `i` outside `0..9` -/
  | voiceIndex (i : Nat)
  /-- `freq_table[n]` with `n` outside `0..95` -/
  | freqIndex (n : Int)
  /-- `timbre[r]` with `r` outside `0..9` -/
  | timbreIndex (r : Nat)
  /-- `delayPipe[i]` with `i` outside `0..32767` -/
  | pipeIndex (i : Int)
  /-- `x %= length` with `length == 0` -/
  | modZero
  deriving DecidableEq, Repr

/-- The functions of `math.h` the program calls. -/
structure Libm (α : Type) where
  cos : α → α
  sin : α → α
  pow : α → α → α

/-- The global tables `timbre[10][10]` and `freq_table[96]`. -/
structure Globals (α : Type) where
  timbre : Fin 10 → Fin 10 → α
  freq_table : Fin 96 → α

section Engine

variable {α : Type} [LinearOrderedField α]

/-- Source `make_table`: `freq_table[i] = 65.406 * pow(tw_root_two, i)`. -/
def make_table (lm : Libm α) : Fin 96 → α :=
  let tw_root_two := lm.pow 2 (1 / 12)
  fun i => (65406 / 1000) * lm.pow tw_root_two (i.val : α)

/-- Source `set_timbres`: rows 0..4 of the (zero-initialised) global `timbre`. -/
def set_timbres : Fin 10 → Fin 10 → α := fun r h =>
  let rows : List (List α) :=
    [[500, 700, 500, 400, 200, 100, 0],
     [500, 600, 400, 200, 100, 100, 0],
     [800, 0, 800, 0, 800, 400, 0],
     [600, 700, 800, 600, 500, 300, 0],
     [400, 500, 400, 500, 400, 400, 200]]
  (rows.getD r.val []).getD h.val 0

/-- The globals as `main` sets them up before the organ is constructed. -/
def Globals.init (lm : Libm α) : Globals α :=
  { timbre := set_timbres, freq_table := make_table lm }

/-! ## Oscillator -/

/-- Source `class Oscillator`; `val0 val1 val2` are `val[0] val[1] val[2]`. -/
structure Oscillator (α : Type) where
  val0 : α
  val1 : α
  val2 : α
  a1 : α
  freq : α
  ampl : α

/-- The macro `unitAmpl`. -/
def unitAmpl : α := -2048

/-- Source `Oscillator::Oscillator()`; `val[2]` and `ampl` keep the content of
the memory `mem`. -/
def Oscillator.ctor (lm : Libm α) (mem : Oscillator α) : Oscillator α :=
  let freq : α := 2 / 100
  { mem with freq := freq, a1 := 2 * lm.cos freq, val0 := 0, val1 := unitAmpl * lm.sin freq }

/-- Source `Oscillator::set`. -/
def Oscillator.set (lm : Libm α) (o : Oscillator α) (f a : α) : Oscillator α :=
  { o with freq := f, ampl := a, a1 := 2 * lm.cos f, val0 := 0, val1 := (-1) * a * lm.sin f }

/-- Source `Oscillator::next`: the new state and the returned sample. -/
def Oscillator.next (o : Oscillator α) : Oscillator α × α :=
  let val2 := o.val1
  let val1 := o.val0
  let val0 := o.a1 * val1 - val2
  ({ o with val2 := val2, val1 := val1, val0 := val0 }, val0)

/-! ## Voice -/

/-- Source `class Voice`. -/
structure Voice (α : Type) where
  waves : Fin 7 → Oscillator α
  volume : α
  ampl : α
  attack : α
  release : α
  note : Int
  channel : Int
  mixer : Fin 7 → α

/-- Source `Voice::Voice()`: the seven oscillators are default-constructed;
`release` and `channel` are not initialised and keep the content of `mem`. -/
def Voice.ctor (lm : Libm α) (mem : Voice α) : Voice α :=
  { mem with
    waves := fun k => Oscillator.ctor lm (mem.waves k)
    volume := 0, ampl := 0, attack := 0, note := -1
    mixer := fun _ => 0 }

/-- Source `Voice::play`: `waves[k].set((k+1)*f, 1024.0)` for `k = 0..6`. -/
def Voice.play (lm : Libm α) (v : Voice α) (theChannel theNote : Int) (theFreq : α) : Voice α :=
  let f := theFreq / 44100
  { v with
    note := theNote, channel := theChannel
    waves := fun k => (v.waves k).set lm (((k.val : α) + 1) * f) 1024
    volume := 1, ampl := 0, attack := 5 / 1000, release := 0 }

/-- Source `Voice::reTrig`. -/
def Voice.reTrig (v : Voice α) : Voice α :=
  { v with volume := 1, ampl := 0, attack := 5 / 1000, release := 0 }

/-- Source `Voice::rel`. -/
def Voice.rel (v : Voice α) : Voice α :=
  { v with volume := 0, attack := 0, release := 8 / 10000 }

/-- Source `Voice::next`: the new state and the returned sample. -/
def Voice.next (v : Voice α) : Voice α × α :=
  let sum : α :=
    ((v.waves 0).next.2 * v.mixer 0 + (v.waves 1).next.2 * v.mixer 1
      + (v.waves 2).next.2 * v.mixer 2 + (v.waves 3).next.2 * v.mixer 3
      + (v.waves 4).next.2 * v.mixer 4 + (v.waves 5).next.2 * v.mixer 5
      + (v.waves 6).next.2 * v.mixer 6)
  let waves := fun k => (v.waves k).next.1
  let ampl : α :=
    if 0 < v.volume ∧ v.ampl < v.volume then v.ampl + v.attack
    else if v.volume = 0 ∧ 0 < v.ampl then
      let a := v.ampl - v.release
      if a < 2 / 10 ∧ -(2 / 10) < a then 0 else a
    else v.ampl
  ({ v with waves := waves, ampl := ampl }, sum * ampl)

/-! ## Arbiter -/

/-- Source `class Arbiter`: `int resources[10]`, the slot indices from least to
most recently used. -/
structure Arbiter where
  resources : List Nat
  deriving DecidableEq, Repr

/-- Source `Arbiter::Arbiter()`: `resources[i] = i` for `i = 0..9`. -/
def Arbiter.ctor : Arbiter :=
  ⟨(List.range 10).foldl (fun r i => r.set i i) (List.replicate 10 0)⟩

/-- Source `Arbiter::shift`. -/
def Arbiter.shift (a : Arbiter) : Arbiter :=
  let temp := a.resources.getD 0 0
  let r := (List.range 9).foldl (fun r i => r.set i (r.getD (i + 1) 0)) a.resources
  ⟨r.set 9 temp⟩

/-- One iteration of the loop of `Arbiter::reorder` on the pair
`(found, resources)`. -/
def Arbiter.reorderStep (voice : Nat) (st : Bool × List Nat) (i : Nat) : Bool × List Nat :=
  let found := if st.2.getD i 0 = voice then true else st.1
  if found then (found, st.2.set i (st.2.getD (i + 1) 0)) else (found, st.2)

/-- Source `Arbiter::reorder`. -/
def Arbiter.reorder (a : Arbiter) (voice : Nat) : Arbiter :=
  let st := (List.range 9).foldl (Arbiter.reorderStep voice) (false, a.resources)
  ⟨st.2.set 9 voice⟩

/-! ## Organ -/

/-- Source `class Organ`: the arbiter and the ten voices `voices[10]`. -/
structure Organ (α : Type) where
  theArbiter : Arbiter
  voices : Fin 10 → Voice α

/-- The inner loop of `Organ::setReg` on one voice: the seven mixer values
computed from the row `timbre[r]`. -/
def Organ.setRegVoice (lm : Libm α) (row : Fin 10 → α) (v : Voice α) : Voice α :=
  { v with
    mixer := fun h =>
      if 0 < row (Fin.castLE (by decide) h) then
        lm.pow 2 (row (Fin.castLE (by decide) h) / 400) / 8
      else 0 }

/-- Source `Organ::setReg`: `timbre[r]` is read without a range check. -/
def Organ.setReg (lm : Libm α) (g : Globals α) (o : Organ α) (r : Nat) :
    Except Fault (Organ α) :=
  if h : r < 10 then
    .ok { o with voices := fun i => Organ.setRegVoice lm (g.timbre ⟨r, h⟩) (o.voices i) }
  else .error (.timbreIndex r)

/-- Source `Organ::Organ()`: the members are default-constructed (over the
memory `mem`), then `setReg(3)` runs. -/
def Organ.ctor (lm : Libm α) (g : Globals α) (mem : Fin 10 → Voice α) : Organ α :=
  { theArbiter := Arbiter.ctor
    voices := fun i => Organ.setRegVoice lm (g.timbre 3) (Voice.ctor lm (mem i)) }

/-- The search loop shared by `Organ::noteOn` and `Organ::noteOff`:
`for(i=0; i<10; i++) if (voices[i].note == theNote && voices[i].channel == theChannel) break;`
run from index `i` for at most `k` more iterations. The result is
`(true, i)` when the loop left through `break` at index `i`, and `(false, i)`
with the final value of `i` when it ran to its end. -/
def Organ.scan (vs : Fin 10 → Voice α) (theChannel theNote : Int) : Nat → Nat → Bool × Nat
  | 0, i => (false, i)
  | k + 1, i =>
    if h : i < 10 then
      if (vs ⟨i, h⟩).note = theNote ∧ (vs ⟨i, h⟩).channel = theChannel then (true, i)
      else Organ.scan vs theChannel theNote k (i + 1)
    else (false, i)

/-- Source `Organ::noteOn`. On a match the loop body retriggers voice `i` and
reorders the arbiter; otherwise the voice `resources[0]` is taken, the arbiter
shifted and the voice played with `freq_table[theNote]`, which is read without
a range check. -/
def Organ.noteOn (lm : Libm α) (g : Globals α) (o : Organ α) (theChannel theNote : Int) :
    Except Fault (Organ α) :=
  match Organ.scan o.voices theChannel theNote 10 0 with
  | (true, i) =>
    if h : i < 10 then
      .ok { voices := Function.update o.voices ⟨i, h⟩ (o.voices ⟨i, h⟩).reTrig
            theArbiter := o.theArbiter.reorder i }
    else .error (.voiceIndex i)
  | (false, _) =>
    let i := o.theArbiter.resources.getD 0 0
    let arb := o.theArbiter.shift
    if hn : 0 ≤ theNote ∧ theNote < 96 then
      if h : i < 10 then
        .ok { voices := Function.update o.voices ⟨i, h⟩
                ((o.voices ⟨i, h⟩).play lm theChannel theNote
                  (g.freq_table ⟨theNote.toNat, by omega⟩))
              theArbiter := arb }
      else .error (.voiceIndex i)
    else .error (.freqIndex theNote)

/-- Source `Organ::noteOff`. On a match the loop body releases voice `i` and
breaks; after the loop `voices[i].rel()` runs once more with the final value
of `i`, which is `10` when the loop found no match. -/
def Organ.noteOff (o : Organ α) (theChannel theNote : Int) : Except Fault (Organ α) :=
  let st := Organ.scan o.voices theChannel theNote 10 0
  let i := st.2
  let vs : Fin 10 → Voice α :=
    if h : st.1 = true ∧ i < 10 then Function.update o.voices ⟨i, h.2⟩ (o.voices ⟨i, h.2⟩).rel
    else o.voices
  if h : i < 10 then
    .ok { o with voices := Function.update vs ⟨i, h⟩ (vs ⟨i, h⟩).rel }
  else .error (.voiceIndex i)

/-- Source `Organ::next`: every voice advances, the ten samples are added. -/
def Organ.next (o : Organ α) : Organ α × α :=
  ({ o with voices := fun i => (o.voices i).next.1 },
    (o.voices 0).next.2 + (o.voices 1).next.2 + (o.voices 2).next.2 + (o.voices 3).next.2
      + (o.voices 4).next.2 + (o.voices 5).next.2 + (o.voices 6).next.2
      + (o.voices 7).next.2 + (o.voices 8).next.2 + (o.voices 9).next.2)

/-- The `(channel, note)` pair of a voice. -/
def Voice.key (v : Voice α) : Int × Int := (v.channel, v.note)

/-- No voice slot has the note and the channel of the call: the search loop
of `noteOn` and `noteOff` finds nothing. -/
def Organ.NoMatch (o : Organ α) (theChannel theNote : Int) : Prop :=
  ∀ i : Fin 10, ¬ ((o.voices i).note = theNote ∧ (o.voices i).channel = theChannel)

/-- A sequence of `noteOn` calls, each given as `(channel, note)`, stopping at
the first fault. -/
def Organ.noteOns (lm : Libm α) (g : Globals α) (o : Organ α) :
    List (Int × Int) → Except Fault (Organ α)
  | [] => .ok o
  | c :: cs =>
    match Organ.noteOn lm g o c.1 c.2 with
    | .ok o1 => Organ.noteOns lm g o1 cs
    | .error e => .error e

/-! ## Reverb -/

/-- Source `class Reverb`; `delayPipe` is the buffer of `new float[32768]`,
`length` and the two cursors are `int`. -/
structure Reverb (α : Type) where
  delayPipe : List α
  length : Int
  feedback : α
  pointerIn : Int
  pointerOut : Int

/-- Source `Reverb::Reverb(int l, float f)`: the 32768 samples of the new
buffer are all set to `0`. There is no check on `l`. -/
def Reverb.ctor (l : Int) (f : α) : Reverb α :=
  { delayPipe := List.replicate 32768 0
    length := l
    feedback := f
    pointerIn := 0
    pointerOut := l }

/-- Source `Reverb::next`: the new state and the returned sample. The two
messages written to `stderr` do not touch the state and are left out. Both
cursors are advanced with `++p %= length`, the remainder of C (`Int.tmod`).
A cursor below `0` or beyond the buffer is an access outside `delayPipe`. -/
def Reverb.next (r : Reverb α) (input : α) : Except Fault (Reverb α × α) :=
  match (if 0 ≤ r.pointerOut then r.delayPipe[r.pointerOut.toNat]? else none) with
  | none => .error (.pipeIndex r.pointerOut)
  | some outValue =>
    if 0 ≤ r.pointerIn ∧ r.pointerIn < (r.delayPipe.length : Int) then
      if r.length = 0 then .error .modZero
      else
        .ok ({ r with
                delayPipe := r.delayPipe.set r.pointerIn.toNat (input + outValue * r.feedback)
                pointerIn := Int.tmod (r.pointerIn + 1) r.length
                pointerOut := Int.tmod (r.pointerOut + 1) r.length }, outValue)
    else .error (.pipeIndex r.pointerIn)

/-- Feeding the samples of `inputs` one after the other: the final state and
the outputs in order, or the first fault. -/
def Reverb.run (r : Reverb α) : List α → Except Fault (Reverb α × List α)
  | [] => .ok (r, [])
  | x :: xs =>
    match r.next x with
    | .error e => .error e
    | .ok (r1, y) =>
      match Reverb.run r1 xs with
      | .error e => .error e
      | .ok (r2, ys) => .ok (r2, y :: ys)

/-- The unit impulse: `1` at sample `0`, `0` at every later sample, `n` samples long. -/
def impulse (n : Nat) : List α := (List.range n).map (fun t => if t = 0 then 1 else 0)

end Engine

/-! ## MIDI parser (the byte handling in the loop of `main`) -/

/-- A call the parser makes on the organ. -/
inductive Event where
  | noteOn (channel note : Int)
  | noteOff (channel note : Int)
  deriving DecidableEq, Repr

/-- The parser variables of `main`. -/
structure MidiState where
  midi_cmd : Int
  midi_count : Int
  midi_channel : Int
  midi_note : Int
  deriving DecidableEq, Repr

/-- The local `midi_offset` ("Transpose value"), set to `1` and never changed. -/
def midi_offset : Int := 1

/-- The parser variables when the loop starts: `midi_count = 0`,
`midi_channel = 0`; `midi_cmd` and `midi_note` are not initialised. -/
def MidiState.init (cmd note : Int) : MidiState :=
  { midi_cmd := cmd, midi_count := 0, midi_channel := 0, midi_note := note }

/-- The parser on one received byte `theByte` (an `unsigned char`): the new
parser variables and the organ calls made, in order. -/
def midiByte (s : MidiState) (theByte : Nat) : MidiState × List Event :=
  if theByte &&& 0x80 = 0x80 then
    if theByte &&& 0x90 = 0x90 then
      ({ s with midi_channel := ((theByte &&& 0x0f : Nat) : Int), midi_count := 1,
                midi_cmd := 0x90 }, [])
    else if theByte &&& 0x90 = 0x80 then
      ({ s with midi_channel := ((theByte &&& 0x0f : Nat) : Int), midi_count := 1,
                midi_cmd := 0x80 }, [])
    else (s, [])
  else if s.midi_count = 1 then
    ({ s with midi_note := (theByte : Int) + midi_offset, midi_count := s.midi_count + 1 }, [])
  else if s.midi_count = 2 then
    let s1 := { s with midi_count := 1 }
    let e1 :=
      if s1.midi_cmd = 0x90 then
        if theByte ≠ 0 then [Event.noteOn s1.midi_channel s1.midi_note]
        else [Event.noteOff s1.midi_channel s1.midi_note]
      else []
    let e2 := if s1.midi_cmd = 0x80 then [Event.noteOff s1.midi_channel s1.midi_note] else []
    (s1, e1 ++ e2)
  else (s, [])

/-- The parser on a sequence of bytes: the final parser variables and all
organ calls made, in order. -/
def midiBytes (s : MidiState) : List Nat → MidiState × List Event
  | [] => (s, [])
  | b :: bs =>
    let r := midiByte s b
    let r2 := midiBytes r.1 bs
    (r2.1, r.2 ++ r2.2)

/-! ## Concrete data for evaluating the definitions -/

/-- A stand-in math library over `ℚ` (constant `cos`, `sin`; `pow x y = x`). -/
def demoLibm : Libm ℚ := { cos := fun _ => 1, sin := fun _ => 0, pow := fun x _ => x }

/-- Memory content before construction: all zero. -/
def zeroVoice : Voice ℚ :=
  { waves := fun _ => ⟨0, 0, 0, 0, 0, 0⟩, volume := 0, ampl := 0, attack := 0, release := 0,
    note := 0, channel := 0, mixer := fun _ => 0 }

/-- A freshly constructed organ over `ℚ`. -/
def demoOrgan : Organ ℚ := Organ.ctor demoLibm (Globals.init demoLibm) (fun _ => zeroVoice)

/-! ## Reachable states -/

/-- The arbiter states reachable from construction by `shift()` and
`reorder(v)` with `0 <= v < 10`. -/
inductive Arbiter.Reachable : Arbiter → Prop where
  | ctor : Arbiter.Reachable Arbiter.ctor
  | shift {a : Arbiter} : Arbiter.Reachable a → Arbiter.Reachable a.shift
  | reorder {a : Arbiter} (v : Nat) : v < 10 → Arbiter.Reachable a →
      Arbiter.Reachable (a.reorder v)

/-- A reverb line whose length `L` and cursors `p`, `q` are not negative. -/
def Reverb.atNat {α : Type} (d : List α) (L : Nat) (g : α) (p q : Nat) : Reverb α :=
  { delayPipe := d
    length := (L : Int)
    feedback := g
    pointerIn := (p : Int)
    pointerOut := (q : Int) }

/-- The state of a reverb line with buffer size `N`, delay `L` and gain `g`
once `t >= 1` samples of the unit impulse have been fed: both cursors at
`t % L`, the buffer zero except `g ^ ((t - 1) / L)` at position `0`. Used to
follow `Reverb::next` along the impulse. -/
def Reverb.ringing {α : Type} [LinearOrderedField α] (N L : Nat) (g : α) (t : Nat) : Reverb α :=
  Reverb.atNat ((List.replicate N 0).set 0 (g ^ ((t - 1) / L))) L g (t % L) (t % L)

/-- The impulse response the reverb line is to have at sample `t`:
`g ^ (k - 1)` when `t = k * L` with `k >= 1`, and `0` otherwise. -/
def combResponse {α : Type} [LinearOrderedField α] (L : Nat) (g : α) (t : Nat) : α :=
  if t % L = 0 ∧ 0 < t then g ^ (t / L - 1) else 0

/-- The organ states reachable from construction by the member functions
`noteOn`, `noteOff`, `setReg` and `next`, each call running without fault. -/
inductive Organ.Reachable {α : Type} [LinearOrderedField α] (lm : Libm α) (g : Globals α) :
    Organ α → Prop where
  | ctor (mem : Fin 10 → Voice α) : Organ.Reachable lm g (Organ.ctor lm g mem)
  | noteOn {o o1 : Organ α} (theChannel theNote : Int) : Organ.Reachable lm g o →
      Organ.noteOn lm g o theChannel theNote = .ok o1 → Organ.Reachable lm g o1
  | noteOff {o o1 : Organ α} (theChannel theNote : Int) : Organ.Reachable lm g o →
      Organ.noteOff o theChannel theNote = .ok o1 → Organ.Reachable lm g o1
  | setReg {o o1 : Organ α} (r : Nat) : Organ.Reachable lm g o →
      Organ.setReg lm g o r = .ok o1 → Organ.Reachable lm g o1
  | next {o : Organ α} : Organ.Reachable lm g o → Organ.Reachable lm g o.next.1

/-- No two distinct voice slots with an assigned note (`note != -1`) have the
same `(channel, note)`. -/
def Organ.KeysDistinct {α : Type} (o : Organ α) : Prop :=
  ∀ i j : Fin 10, (o.voices i).note ≠ -1 → (o.voices i).note = (o.voices j).note →
    (o.voices i).channel = (o.voices j).channel → i = j

/-- The organ after `noteOn(0, 60)` on the freshly constructed `demoOrgan`. -/
def demoOrgan1 : Organ ℚ :=
  match Organ.noteOn demoLibm (Globals.init demoLibm) demoOrgan 0 60 with
  | .ok o => o
  | .error _ => demoOrgan

/-- Eleven `noteOn` calls with pairwise distinct notes on channel 0. -/
def demoCalls : List (Int × Int) :=
  [(0, 1), (0, 2), (0, 3), (0, 4), (0, 5), (0, 6), (0, 7), (0, 8), (0, 9), (0, 10), (0, 11)]

/-- The voice after `k` calls of `Voice::next`. -/
def Voice.after {α : Type} [LinearOrderedField α] (v : Voice α) : Nat → Voice α
  | 0 => v
  | k + 1 => Voice.after v.next.1 k

/-- The oscillator after `n` calls of `Oscillator::next`. -/
def Oscillator.after {α : Type} [LinearOrderedField α] (o : Oscillator α) : Nat → Oscillator α
  | 0 => o
  | n + 1 => (Oscillator.after o n).next.1

/-- The value returned by the `n`-th call of `Oscillator::next` (`n >= 1`). -/
def Oscillator.sample {α : Type} [LinearOrderedField α] (o : Oscillator α) (n : Nat) : α :=
  (Oscillator.after o (n - 1)).next.2

/-- The data bytes of a run of note messages, each given as `(note, velocity)`:
`n1, v1, n2, v2, ...`. -/
def dataBytes : List (Nat × Nat) → List Nat
  | [] => []
  | p :: ps => p.1 :: p.2 :: dataBytes ps

/-- Two parser states from which every byte sequence produces the same organ
calls: they agree on command, count and channel, and on the note unless the
parser is waiting for a note byte (`midi_count = 1`), which overwrites it. -/
def MidiState.Agree (s t : MidiState) : Prop :=
  s.midi_cmd = t.midi_cmd ∧ s.midi_count = t.midi_count ∧ s.midi_channel = t.midi_channel
    ∧ (s.midi_count ≠ 1 → s.midi_note = t.midi_note)

/-! ## Sequences of calls on a voice and on the organ -/

/-- A call of a member function of `Voice`. -/
inductive VoiceOp (α : Type) where
  | play (theChannel theNote : Int) (theFreq : α)
  | reTrig
  | rel
  | next

/-- One call on a voice. -/
def Voice.step {α : Type} [LinearOrderedField α] (lm : Libm α) (v : Voice α) :
    VoiceOp α → Voice α
  | .play theChannel theNote theFreq => v.play lm theChannel theNote theFreq
  | .reTrig => v.reTrig
  | .rel => v.rel
  | .next => v.next.1

/-- A sequence of calls on a voice, in order. -/
def Voice.steps {α : Type} [LinearOrderedField α] (lm : Libm α) (v : Voice α) :
    List (VoiceOp α) → Voice α
  | [] => v
  | op :: ops => Voice.steps lm (Voice.step lm v op) ops

/-- Whether a sequence of calls contains a `play()`. -/
def VoiceOp.anyPlay {α : Type} : List (VoiceOp α) → Bool
  | [] => false
  | .play _ _ _ :: _ => true
  | _ :: ops => VoiceOp.anyPlay ops

/-- The way `Organ` calls a voice for notes other than `-1`: every `play()`
gets a note other than `-1`, and `reTrig()` comes only after a `play()`
(`Organ::noteOn` retriggers a voice whose note equals the note played).
`played` tells whether a `play()` has already been made. -/
def VoiceOp.organUse {α : Type} : Bool → List (VoiceOp α) → Bool
  | _, [] => true
  | _, .play _ theNote _ :: ops => decide (theNote ≠ -1) && VoiceOp.organUse true ops
  | played, .reTrig :: ops => played && VoiceOp.organUse played ops
  | played, .rel :: ops => VoiceOp.organUse played ops
  | played, .next :: ops => VoiceOp.organUse played ops

/-- A call of `Organ::noteOn` or `Organ::noteOff`. -/
inductive OrganCall where
  | noteOn (theChannel theNote : Int)
  | noteOff (theChannel theNote : Int)
  deriving DecidableEq, Repr

/-- A sequence of `noteOn` and `noteOff` calls on the organ, in order, stopping
at the first fault. -/
def Organ.calls {α : Type} [LinearOrderedField α] (lm : Libm α) (g : Globals α) (o : Organ α) :
    List OrganCall → Except Fault (Organ α)
  | [] => .ok o
  | .noteOn theChannel theNote :: cs =>
    match Organ.noteOn lm g o theChannel theNote with
    | .ok o1 => Organ.calls lm g o1 cs
    | .error e => .error e
  | .noteOff theChannel theNote :: cs =>
    match Organ.noteOff o theChannel theNote with
    | .ok o1 => Organ.calls lm g o1 cs
    | .error e => .error e

/-! # Theorems -/

/-! ## The MIDI parser on note messages -/

theorem noteOn_status_bits (c : Nat) (hc : c < 16) :
    (0x90 + c) &&& 0x80 = 0x80 ∧ (0x90 + c) &&& 0x90 = 0x90 ∧ (0x90 + c) &&& 0x0f = c := by
  have h : ∀ k : Fin 16,
      (0x90 + k.val) &&& 0x80 = 0x80 ∧ (0x90 + k.val) &&& 0x90 = 0x90
        ∧ (0x90 + k.val) &&& 0x0f = k.val := by decide
  exact h ⟨c, hc⟩

theorem noteOff_status_bits (c : Nat) (hc : c < 16) :
    (0x80 + c) &&& 0x80 = 0x80 ∧ (0x80 + c) &&& 0x90 = 0x80 ∧ (0x80 + c) &&& 0x0f = c := by
  have h : ∀ k : Fin 16,
      (0x80 + k.val) &&& 0x80 = 0x80 ∧ (0x80 + k.val) &&& 0x90 = 0x80
        ∧ (0x80 + k.val) &&& 0x0f = k.val := by decide
  exact h ⟨c, hc⟩

theorem data_byte_bits (n : Nat) (hn : n < 128) : ¬ (n &&& 0x80 = 0x80) := by
  have h : ∀ k : Fin 128, ¬ (k.val &&& 0x80 = 0x80) := by decide
  exact h ⟨n, hn⟩

theorem midiByte_noteOn_status (s : MidiState) (c : Nat) (hc : c < 16) :
    midiByte s (0x90 + c)
      = ({ s with midi_channel := (c : Int), midi_count := 1, midi_cmd := 0x90 }, []) := by
  obtain ⟨h1, h2, h3⟩ := noteOn_status_bits c hc
  simp only [midiByte, h1, h2, h3, if_true]

theorem midiByte_noteOff_status (s : MidiState) (c : Nat) (hc : c < 16) :
    midiByte s (0x80 + c)
      = ({ s with midi_channel := (c : Int), midi_count := 1, midi_cmd := 0x80 }, []) := by
  obtain ⟨h1, h2, h3⟩ := noteOff_status_bits c hc
  have h4 : ¬ ((128 : Nat) = 144) := by decide
  simp only [midiByte, h1, h2, h3, h4, if_true, if_false]

theorem midiByte_note (s : MidiState) (n : Nat) (hn : n < 128) (h1 : s.midi_count = 1) :
    midiByte s n = ({ s with midi_note := (n : Int) + 1, midi_count := 2 }, []) := by
  have hb := data_byte_bits n hn
  simp only [midiByte, hb, h1, if_true, if_false, midi_offset]
  rfl

theorem midiByte_velocity (s : MidiState) (v : Nat) (hv : v < 128) (h2 : s.midi_count = 2) :
    midiByte s v
      = ({ s with midi_count := 1 },
          (if s.midi_cmd = 0x90 then
            if v ≠ 0 then [Event.noteOn s.midi_channel s.midi_note]
            else [Event.noteOff s.midi_channel s.midi_note]
          else [])
          ++ (if s.midi_cmd = 0x80 then [Event.noteOff s.midi_channel s.midi_note] else [])) := by
  have hb := data_byte_bits v hv
  have h21 : ¬ ((2 : Int) = 1) := by decide
  simp only [midiByte, hb, h2, h21, if_true, if_false]

/-- C5: from any parser state, the three bytes `0x90 + c, n, v` (channel `c` in
`0..15`, data bytes `n`, `v` in `0..127`) make exactly one organ call:
`noteOn(c, n + 1)` when `v` is not zero and `noteOff(c, n + 1)` when it is,
`1` being the transpose value `midi_offset`. -/
theorem midi_noteOn_message (s : MidiState) (c n v : Nat)
    (hc : c < 16) (hn : n < 128) (hv : v < 128) :
    midi_offset = 1 ∧
    (midiBytes s [0x90 + c, n, v]).2
      = [if v ≠ 0 then Event.noteOn (c : Int) ((n : Int) + midi_offset)
         else Event.noteOff (c : Int) ((n : Int) + midi_offset)] := by
  refine ⟨rfl, ?_⟩
  simp only [midiBytes, midiByte_noteOn_status s c hc]
  rw [midiByte_note _ n hn rfl, midiByte_velocity _ v hv rfl]
  by_cases h0 : v = 0
  · simp [h0, midi_offset]
  · simp [h0, midi_offset]

theorem midi_noteOn_message_witness :
    midi_offset = 1 ∧
    (midiBytes (MidiState.init 0 0) [0x90 + 0, 0x40, 0x40]).2
      = [if 0x40 ≠ 0 then Event.noteOn ((0 : Nat) : Int) (((0x40 : Nat) : Int) + midi_offset)
         else Event.noteOff ((0 : Nat) : Int) (((0x40 : Nat) : Int) + midi_offset)] :=
  midi_noteOn_message (MidiState.init 0 0) 0 0x40 0x40 (by decide) (by decide) (by decide)

/-- C6: from any parser state, the three bytes `0x80 + c, n, v` (channel `c` in
`0..15`, data bytes in `0..127`) make exactly one organ call,
`noteOff(c, n + 1)`, whatever the velocity byte `v` is. -/
theorem midi_noteOff_message (s : MidiState) (c n v : Nat)
    (hc : c < 16) (hn : n < 128) (hv : v < 128) :
    (midiBytes s [0x80 + c, n, v]).2 = [Event.noteOff (c : Int) ((n : Int) + midi_offset)] := by
  simp only [midiBytes, midiByte_noteOff_status s c hc]
  rw [midiByte_note _ n hn rfl, midiByte_velocity _ v hv rfl]
  simp [midi_offset]

theorem midi_noteOff_message_witness :
    (midiBytes (MidiState.init 0 0) [0x80 + 0, 0x40, 0x7F]).2
      = [Event.noteOff ((0 : Nat) : Int) (((0x40 : Nat) : Int) + midi_offset)] :=
  midi_noteOff_message (MidiState.init 0 0) 0 0x40 0x7F (by decide) (by decide) (by decide)

/-- C7: the status byte `0xB0` (top nibble `0xB`, a control change) is not
ignored: `(0xB0 & 0x90) == 0x90` holds, so the parser takes it for a note-on
and, from any parser state, the data bytes `0x40, 0x40` that follow it make the
organ call `noteOn(0, 0x41)`. -/
theorem midi_control_change_plays_note (s : MidiState) :
    (midiBytes s [0xB0, 0x40, 0x40]).2 = [Event.noteOn 0 0x41] := by
  have h1 : midiByte s 0xB0
      = ({ s with midi_channel := 0, midi_count := 1, midi_cmd := 0x90 }, []) := by
    have e1 : (0xB0 : Nat) &&& 0x80 = 0x80 := by decide
    have e2 : (0xB0 : Nat) &&& 0x90 = 0x90 := by decide
    have e3 : (0xB0 : Nat) &&& 0x0f = 0 := by decide
    simp only [midiByte, e1, e2, e3, if_true]
    rfl
  simp only [midiBytes, h1]
  rw [midiByte_note _ 0x40 (by decide) rfl, midiByte_velocity _ 0x40 (by decide) rfl]
  simp

/-! ## The arbiter -/


theorem list_len10 {β : Type} (l : List β) (h : l.length = 10) :
    ∃ a0 a1 a2 a3 a4 a5 a6 a7 a8 a9, l = [a0, a1, a2, a3, a4, a5, a6, a7, a8, a9] := by
  match l, h with
  | [a0, a1, a2, a3, a4, a5, a6, a7, a8, a9], _ => exact ⟨a0, a1, a2, a3, a4, a5, a6, a7, a8, a9, rfl⟩

theorem Arbiter.ctor_resources : Arbiter.ctor.resources = List.range 10 := by decide

theorem Arbiter.shift_eq (a : Arbiter) (h : a.resources.length = 10) :
    a.shift.resources = a.resources.rotate 1 := by
  obtain ⟨a0, a1, a2, a3, a4, a5, a6, a7, a8, a9, hl⟩ := list_len10 a.resources h
  simp only [Arbiter.shift, hl]
  rfl

theorem Arbiter.reorderStep_found (v : Nat) (l : List Nat) (i : Nat) :
    Arbiter.reorderStep v (true, l) i = (true, l.set i (l.getD (i + 1) 0)) := by
  simp [Arbiter.reorderStep]

theorem Arbiter.reorderStep_hit (v : Nat) (l : List Nat) (i : Nat) (h : l.getD i 0 = v) :
    Arbiter.reorderStep v (false, l) i = (true, l.set i (l.getD (i + 1) 0)) := by
  simp only [Arbiter.reorderStep, h, ↓reduceIte]

theorem Arbiter.reorderStep_miss (v : Nat) (l : List Nat) (i : Nat) (h : ¬ l.getD i 0 = v) :
    Arbiter.reorderStep v (false, l) i = (false, l) := by
  simp only [Arbiter.reorderStep, h, ↓reduceIte, Bool.false_eq_true]

theorem Arbiter.reorder_eq (a : Arbiter) (v : Nat) (h : a.resources.length = 10)
    (hv : v ∈ a.resources) :
    (a.reorder v).resources = a.resources.erase v ++ [v] := by
  obtain ⟨a0, a1, a2, a3, a4, a5, a6, a7, a8, a9, hl⟩ := list_len10 a.resources h
  rw [hl] at hv
  simp only [Arbiter.reorder, hl, List.range, List.range.loop, List.foldl]
  by_cases h0 : a0 = v
  · simp [Arbiter.reorderStep_found, Arbiter.reorderStep_hit, h0]
  rw [Arbiter.reorderStep_miss _ _ _ (by simpa using h0)]
  by_cases h1 : a1 = v
  · simp [Arbiter.reorderStep_found, Arbiter.reorderStep_hit, h0, h1]
  rw [Arbiter.reorderStep_miss _ _ _ (by simpa using h1)]
  by_cases h2 : a2 = v
  · simp [Arbiter.reorderStep_found, Arbiter.reorderStep_hit, h0, h1, h2]
  rw [Arbiter.reorderStep_miss _ _ _ (by simpa using h2)]
  by_cases h3 : a3 = v
  · simp [Arbiter.reorderStep_found, Arbiter.reorderStep_hit, h0, h1, h2, h3]
  rw [Arbiter.reorderStep_miss _ _ _ (by simpa using h3)]
  by_cases h4 : a4 = v
  · simp [Arbiter.reorderStep_found, Arbiter.reorderStep_hit, h0, h1, h2, h3, h4]
  rw [Arbiter.reorderStep_miss _ _ _ (by simpa using h4)]
  by_cases h5 : a5 = v
  · simp [Arbiter.reorderStep_found, Arbiter.reorderStep_hit, h0, h1, h2, h3, h4, h5]
  rw [Arbiter.reorderStep_miss _ _ _ (by simpa using h5)]
  by_cases h6 : a6 = v
  · simp [Arbiter.reorderStep_found, Arbiter.reorderStep_hit, h0, h1, h2, h3, h4, h5, h6]
  rw [Arbiter.reorderStep_miss _ _ _ (by simpa using h6)]
  by_cases h7 : a7 = v
  · simp [Arbiter.reorderStep_found, Arbiter.reorderStep_hit, h0, h1, h2, h3, h4, h5, h6, h7]
  rw [Arbiter.reorderStep_miss _ _ _ (by simpa using h7)]
  by_cases h8 : a8 = v
  · simp [Arbiter.reorderStep_found, Arbiter.reorderStep_hit, h0, h1, h2, h3, h4, h5, h6, h7, h8]
  rw [Arbiter.reorderStep_miss _ _ _ (by simpa using h8)]
  have h9 : a9 = v := by
    simp only [List.mem_cons, List.mem_singleton, List.not_mem_nil, or_false] at hv
    rcases hv with e | e | e | e | e | e | e | e | e | e
    all_goals first | exact e.symm | (exact absurd e.symm (by assumption))
  simp [h0, h1, h2, h3, h4, h5, h6, h7, h8, h9]

theorem Arbiter.shift_perm (a : Arbiter) (h : a.resources.Perm (List.range 10)) :
    a.shift.resources.Perm (List.range 10) := by
  rw [Arbiter.shift_eq a (by simpa using h.length_eq)]
  exact (List.rotate_perm _ _).trans h

theorem Arbiter.reorder_perm (a : Arbiter) (v : Nat) (hv : v < 10)
    (h : a.resources.Perm (List.range 10)) :
    (a.reorder v).resources.Perm (List.range 10) := by
  have hmem : v ∈ a.resources := h.symm.subset (List.mem_range.mpr hv)
  rw [Arbiter.reorder_eq a v (by simpa using h.length_eq) hmem]
  exact (List.perm_append_singleton _ _).trans ((List.perm_cons_erase hmem).symm.trans h)

/-- C2: in every arbiter state reachable from construction by `shift()` and
`reorder(v)` with `0 <= v < 10`, the array `resources` is a permutation of
`0, ..., 9`: every slot index occurs in it exactly once. -/
theorem arbiter_resources_permutation (a : Arbiter) (h : Arbiter.Reachable a) :
    a.resources.Perm (List.range 10) ∧ ∀ v, v < 10 → a.resources.count v = 1 := by
  have hp : a.resources.Perm (List.range 10) := by
    induction h with
    | ctor => rw [Arbiter.ctor_resources]
    | shift _ ih => exact Arbiter.shift_perm _ ih
    | reorder v hv _ ih => exact Arbiter.reorder_perm _ v hv ih
  refine ⟨hp, fun v hv => ?_⟩
  rw [hp.count_eq]
  exact List.count_eq_one_of_mem (List.nodup_range 10) (List.mem_range.mpr hv)

theorem arbiter_resources_permutation_witness :
    ((Arbiter.ctor.shift.reorder 3).reorder 0).resources.Perm (List.range 10)
      ∧ ∀ v, v < 10 → ((Arbiter.ctor.shift.reorder 3).reorder 0).resources.count v = 1 :=
  arbiter_resources_permutation _
    (Arbiter.Reachable.reorder 0 (by decide)
      (Arbiter.Reachable.reorder 3 (by decide) (Arbiter.Reachable.shift Arbiter.Reachable.ctor)))

/-! ## The search loop of `noteOn` and `noteOff` -/

theorem Organ.scan_none {α : Type} (vs : Fin 10 → Voice α) (ch n : Int) :
    ∀ (k i : Nat), i + k = 10 →
      (∀ j : Fin 10, i ≤ j.val → ¬ ((vs j).note = n ∧ (vs j).channel = ch)) →
      Organ.scan vs ch n k i = (false, 10) := by
  intro k
  induction k with
  | zero => intro i hi _; simp only [Organ.scan]; rw [show i = 10 by omega]
  | succ k ih =>
    intro i hi hno
    have hlt : i < 10 := by omega
    simp only [Organ.scan, hlt, dite_true]
    rw [if_neg (hno ⟨i, hlt⟩ (Nat.le_refl i))]
    exact ih (i + 1) (by omega) (fun j hj => hno j (by omega))

theorem Organ.scan_some {α : Type} (vs : Fin 10 → Voice α) (ch n : Int) (p : Fin 10)
    (hp : (vs p).note = n ∧ (vs p).channel = ch) :
    ∀ (k i : Nat), i ≤ p.val → p.val < i + k →
      (∀ j : Fin 10, i ≤ j.val → j.val < p.val → ¬ ((vs j).note = n ∧ (vs j).channel = ch)) →
      Organ.scan vs ch n k i = (true, p.val) := by
  intro k
  induction k with
  | zero => intro i h1 h2 _; omega
  | succ k ih =>
    intro i h1 h2 hno
    have hlt : i < 10 := by have := p.isLt; omega
    simp only [Organ.scan, hlt, dite_true]
    by_cases hip : i = p.val
    · have : (⟨i, hlt⟩ : Fin 10) = p := Fin.ext hip
      rw [this, if_pos hp, hip]
    · rw [if_neg (hno ⟨i, hlt⟩ (Nat.le_refl i) (by simp only []; omega))]
      exact ih (i + 1) (by omega) (by omega) (fun j hj hj2 => hno j (by omega) hj2)

theorem Organ.scan_noMatch {α : Type} (o : Organ α) (ch n : Int) (h : o.NoMatch ch n) :
    Organ.scan o.voices ch n 10 0 = (false, 10) :=
  Organ.scan_none o.voices ch n 10 0 rfl (fun j _ => h j)

theorem demoOrgan_note (i : Fin 10) : (demoOrgan.voices i).note = -1 := rfl

/-! ## `noteOff` without a matching voice -/

/-- C1: when no voice slot matches `(channel, note)`, `Organ::noteOff` is not a
no-op: its search loop ends with `i == 10` and the statement after the loop
calls `voices[10].rel()`, an access outside the ten slots. -/
theorem noteOff_unmatched_out_of_range {α : Type} [LinearOrderedField α]
    (o : Organ α) (theChannel theNote : Int) (h : o.NoMatch theChannel theNote) :
    Organ.noteOff o theChannel theNote = .error (Fault.voiceIndex 10) := by
  simp [Organ.noteOff, Organ.scan_noMatch o theChannel theNote h]

theorem noteOff_unmatched_out_of_range_witness :
    Organ.noteOff demoOrgan 0 60 = .error (Fault.voiceIndex 10) :=
  noteOff_unmatched_out_of_range demoOrgan 0 60
    (fun i hm => absurd ((demoOrgan_note i).symm.trans hm.1) (by decide))

/-! ## `noteOn` without a matching voice -/

theorem Organ.noteOn_noMatch {α : Type} [LinearOrderedField α] (lm : Libm α) (g : Globals α)
    (o : Organ α) (ch n : Int) (hno : o.NoMatch ch n) (k : Fin 96) (hk : (k.val : Int) = n)
    (i : Fin 10) (hi : o.theArbiter.resources.getD 0 0 = i.val) :
    Organ.noteOn lm g o ch n
      = .ok { voices := Function.update o.voices i ((o.voices i).play lm ch n (g.freq_table k))
              theArbiter := o.theArbiter.shift } := by
  have hn : 0 ≤ n ∧ n < 96 := by have := k.isLt; omega
  have hk2 : (⟨n.toNat, by omega⟩ : Fin 96) = k := by
    apply Fin.ext; simp only []; omega
  have hi2 : o.theArbiter.resources.getD 0 0 < 10 := by rw [hi]; exact i.isLt
  have hi3 : (⟨o.theArbiter.resources.getD 0 0, hi2⟩ : Fin 10) = i := Fin.ext hi
  simp only [Organ.noteOn, Organ.scan_noMatch o ch n hno, hn, and_self, dite_true, hi2, hk2, hi3]

theorem Organ.noteOn_noMatch_range {α : Type} [LinearOrderedField α] (lm : Libm α)
    (g : Globals α) (o : Organ α) (ch n : Int) (hno : o.NoMatch ch n)
    (hn : ¬ (0 ≤ n ∧ n < 96)) :
    Organ.noteOn lm g o ch n = .error (Fault.freqIndex n) := by
  simp only [Organ.noteOn, Organ.scan_noMatch o ch n hno, hn, dite_false]

theorem Arbiter.head_lt (a : Arbiter) (h : a.resources.Perm (List.range 10)) :
    a.resources.getD 0 0 < 10 := by
  obtain ⟨a0, a1, a2, a3, a4, a5, a6, a7, a8, a9, hl⟩ :=
    list_len10 a.resources (by simpa using h.length_eq)
  have hm : a0 ∈ a.resources := by rw [hl]; exact List.mem_cons_self _ _
  have := List.mem_range.mp (h.subset hm)
  simpa [hl] using this

/-- C9: `Organ::noteOn` does not reject a note outside the frequency table:
for every organ state and every note outside `0..95` that matches no voice
slot, the call goes on to `freq_table[theNote]`, an index outside the table
`0..95`, instead of reporting an error. -/
theorem noteOn_unmatched_outside_table {α : Type} [LinearOrderedField α] (lm : Libm α)
    (g : Globals α) (o : Organ α) (theChannel theNote : Int)
    (hno : o.NoMatch theChannel theNote) (hn : ¬ (0 ≤ theNote ∧ theNote < 96)) :
    Organ.noteOn lm g o theChannel theNote = .error (Fault.freqIndex theNote) :=
  Organ.noteOn_noMatch_range lm g o theChannel theNote hno hn

theorem noteOn_unmatched_outside_table_witness :
    (midiBytes (MidiState.init 0 0) [0x90, 0x7F, 0x40]).2 = [Event.noteOn 0 128]
      ∧ Organ.noteOn demoLibm (Globals.init demoLibm) demoOrgan 0 128
          = .error (Fault.freqIndex 128) :=
  ⟨by decide,
    noteOn_unmatched_outside_table demoLibm (Globals.init demoLibm) demoOrgan 0 128
      (fun i hm => absurd ((demoOrgan_note i).symm.trans hm.1) (by decide)) (by decide)⟩

/-! ## The reverb line -/

/-- `Reverb::next` on a line whose length and cursors are not negative. -/
theorem Reverb.next_atNat {α : Type} [LinearOrderedField α] (d : List α) (L p q : Nat)
    (g x y : α) (hq : d[q]? = some y) (hp : p < d.length) (hL : L ≠ 0) :
    Reverb.next (Reverb.atNat d L g p q) x
      = .ok (Reverb.atNat (d.set p (x + y * g)) L g ((p + 1) % L) ((q + 1) % L), y) := by
  have hL1 : ¬ ((L : Int) = 0) := by exact_mod_cast hL
  have hp1 : (0 : Int) ≤ (p : Int) ∧ (p : Int) < (d.length : Int) :=
    ⟨Int.ofNat_nonneg p, by exact_mod_cast hp⟩
  have hq0 : (0 : Int) ≤ (q : Int) := Int.ofNat_nonneg q
  simp only [Reverb.next, Reverb.atNat, hq0, if_true, Int.toNat_ofNat, hq, hp1, and_self, hL1,
    if_false]
  rfl

theorem Reverb.next_outside {α : Type} [LinearOrderedField α] (r : Reverb α) (x : α)
    (h : r.pointerOut < 0 ∨ (r.delayPipe.length : Int) ≤ r.pointerOut) :
    Reverb.next r x = .error (Fault.pipeIndex r.pointerOut) := by
  rcases h with h | h
  · have h0 : ¬ (0 ≤ r.pointerOut) := by omega
    simp only [Reverb.next, h0, if_false]
  · have h0 : 0 ≤ r.pointerOut := by omega
    have h1 : r.delayPipe[r.pointerOut.toNat]? = none := by
      apply List.getElem?_eq_none
      omega
    simp only [Reverb.next, h0, if_true, h1]

theorem Reverb.next_blank_iff {α : Type} [LinearOrderedField α] (N : Nat) (l : Int) (f x : α)
    (hN : 0 < N) :
    (∃ r y, Reverb.next ⟨List.replicate N 0, l, f, 0, l⟩ x = .ok (r, y))
      ↔ (1 ≤ l ∧ l < (N : Int)) := by
  by_cases hout : l < 0 ∨ (N : Int) ≤ l
  · have hf := Reverb.next_outside (⟨List.replicate N 0, l, f, 0, l⟩ : Reverb α) x
      (by simpa only [List.length_replicate] using hout)
    rw [hf]
    constructor
    · rintro ⟨r, y, h⟩; cases h
    · intro h; omega
  · have h0 : 0 ≤ l := by omega
    have h1 : l < (N : Int) := by omega
    obtain ⟨n, rfl⟩ := Int.eq_ofNat_of_zero_le h0
    have hn : n < N := by exact_mod_cast h1
    by_cases hz : n = 0
    · subst hz
      constructor
      · rintro ⟨r, y, h⟩
        simp [Reverb.next, List.getElem?_replicate, hN] at h
      · intro h; omega
    · constructor
      · intro _
        exact ⟨by omega, h1⟩
      · intro _
        have hq : (List.replicate N (0 : α))[n]? = some 0 := by
          rw [List.getElem?_replicate, if_pos hn]
        exact ⟨_, _, Reverb.next_atNat (List.replicate N 0) n 0 n f x 0 hq
          (by rw [List.length_replicate]; exact hN) hz⟩

/-- C10, the claim refuted: `Reverb(32768, 0.5)` is not rejected. Construction
yields a `Reverb` with `length = 32768` and the read cursor at `32768`, one
past the buffer of 32768 samples; the first `next()` then reads `delayPipe[32768]`. -/
theorem reverb_ctor_32768_not_rejected :
    (Reverb.ctor 32768 (1 / 2 : ℚ)).length = 32768
      ∧ (Reverb.ctor 32768 (1 / 2 : ℚ)).pointerOut = 32768
      ∧ (Reverb.ctor 32768 (1 / 2 : ℚ)).delayPipe.length = 32768
      ∧ Reverb.next (Reverb.ctor 32768 (1 / 2 : ℚ)) 0 = .error (Fault.pipeIndex 32768) :=
  ⟨rfl, rfl, List.length_replicate _ _,
    Reverb.next_outside (Reverb.ctor 32768 (1 / 2 : ℚ)) 0
      (Or.inr (by
        show (((List.replicate 32768 (0 : ℚ)).length : Nat) : Int) ≤ 32768
        rw [List.length_replicate]; decide))⟩

/-- C10 as amended: `Reverb(l, f)` makes no check on the `int` `l` and always
produces a `Reverb`: `length = l`, `feedback = f`, write cursor `0`, read
cursor `l`, a zeroed buffer of 32768 samples. The read cursor is inside the
buffer exactly when `0 <= l < 32768`, and the first call of `next` goes
through exactly when `1 <= l < 32768`. -/
theorem reverb_ctor_unchecked {α : Type} [LinearOrderedField α] (l : Int) (f : α) :
    (Reverb.ctor l f).length = l ∧ (Reverb.ctor l f).feedback = f
      ∧ (Reverb.ctor l f).pointerIn = 0 ∧ (Reverb.ctor l f).pointerOut = l
      ∧ (Reverb.ctor l f).delayPipe = List.replicate 32768 0
      ∧ ((0 ≤ (Reverb.ctor l f).pointerOut
            ∧ (Reverb.ctor l f).pointerOut < ((Reverb.ctor l f).delayPipe.length : Int))
          ↔ (0 ≤ l ∧ l < 32768))
      ∧ ∀ x : α, (∃ r y, Reverb.next (Reverb.ctor l f) x = .ok (r, y)) ↔ (1 ≤ l ∧ l < 32768) := by
  refine ⟨rfl, rfl, rfl, rfl, rfl, ?_,
    fun x => Reverb.next_blank_iff 32768 l f x (by decide)⟩
  show (0 ≤ l ∧ l < (((List.replicate 32768 (0 : α)).length : Nat) : Int)) ↔ (0 ≤ l ∧ l < 32768)
  rw [List.length_replicate]
  rfl

theorem replicate_set_self {β : Type} (N p : Nat) (a : β) :
    (List.replicate N a).set p a = List.replicate N a := by
  apply List.ext_getElem?
  intro j
  rw [List.getElem?_set]
  split_ifs with h1 h2
  · subst h1
    rw [List.length_replicate] at h2
    rw [List.getElem?_replicate, if_pos h2]
  · subst h1
    rw [List.length_replicate] at h2
    rw [List.getElem?_replicate, if_neg h2]
  · rfl

theorem Reverb.next_blank_impulse {α : Type} [LinearOrderedField α] (N L : Nat) (g : α)
    (h1 : 1 ≤ L) (h2 : L < N) :
    Reverb.next (Reverb.atNat (List.replicate N 0) L g 0 L) 1
      = .ok (Reverb.ringing N L g 1, 0) := by
  have hL : L ≠ 0 := by omega
  have hN : 0 < N := by omega
  have hq : (List.replicate N (0 : α))[L]? = some 0 := by
    rw [List.getElem?_replicate, if_pos h2]
  rw [Reverb.next_atNat (List.replicate N 0) L 0 L g 1 0 hq
    (by rw [List.length_replicate]; exact hN) hL]
  simp only [Reverb.ringing, Nat.add_mod_left, Nat.zero_add, zero_mul, add_zero, Nat.sub_self,
    Nat.zero_div, pow_zero]

theorem Reverb.next_ringing {α : Type} [LinearOrderedField α] (N L : Nat) (g : α)
    (h1 : 1 ≤ L) (h2 : L < N) (t : Nat) (ht : 1 ≤ t) :
    Reverb.next (Reverb.ringing N L g t) 0
      = .ok (Reverb.ringing N L g (t + 1), combResponse L g t) := by
  have hL : L ≠ 0 := by omega
  have hN : 0 < N := by omega
  have hpL : t % L < L := Nat.mod_lt _ (by omega)
  have hpN : t % L < N := by omega
  have hnext : (t % L + 1) % L = (t + 1) % L := by rw [Nat.add_mod, Nat.add_mod t 1 L]; simp
  have hlen : t % L < ((List.replicate N (0 : α)).set 0 (g ^ ((t - 1) / L))).length := by
    rw [List.length_set, List.length_replicate]; exact hpN
  by_cases hz : t % L = 0
  · -- the cursors are back at position `0`
    obtain ⟨m, hm⟩ : ∃ m, t = L * m := ⟨t / L, (Nat.mul_div_cancel' (Nat.dvd_of_mod_eq_zero hz)).symm⟩
    have hm1 : 1 ≤ m := by
      rcases Nat.eq_zero_or_pos m with h0 | h0
      · subst h0; omega
      · exact h0
    have hL0 : 0 < L := by omega
    have e1 : (t - 1) / L = m - 1 := by
      have h3 : t - 1 = L * (m - 1) + (L - 1) := by
        have : L * m = L * (m - 1) + L := by
          rw [← Nat.mul_succ]; congr 1; omega
        omega
      rw [h3, Nat.mul_add_div hL0, Nat.div_eq_of_lt (by omega)]; rfl
    have e2 : t / L = m := by rw [hm, Nat.mul_div_cancel_left _ hL0]
    have e3 : (t + 1 - 1) / L = m := by rw [Nat.add_sub_cancel]; exact e2
    have e4 : g ^ (m - 1) * g = g ^ m := by
      rw [← pow_succ]; congr 1; omega
    have hget : ((List.replicate N (0 : α)).set 0 (g ^ ((t - 1) / L)))[t % L]?
        = some (g ^ (m - 1)) := by
      rw [hz, e1, List.getElem?_set_self (by rw [List.length_replicate]; exact hN)]
    unfold Reverb.ringing
    rw [Reverb.next_atNat _ L (t % L) (t % L) g 0 _ hget hlen hL]
    have e5 : (t + 1) % L = 1 % L := by rw [Nat.add_mod, hz, Nat.zero_add, Nat.mod_mod]
    simp only [combResponse, hz, ht, e1, e2, e3, e4, e5, zero_add, List.set_set, true_and,
      show 0 < t by omega, if_true]
  · have e1 : (t + 1 - 1) / L = (t - 1) / L := by
      rw [Nat.add_sub_cancel]
      have hL0 : 0 < L := by omega
      have h3 : t = (t - 1) + 1 := by omega
      have h4 : (t - 1) % L + 1 < L := by
        have h5 : (t - 1) % L < L := Nat.mod_lt _ hL0
        by_contra hcon
        have h6 : (t - 1) % L = L - 1 := by omega
        apply hz
        rw [h3, Nat.add_mod, h6]
        rcases Nat.lt_or_ge 1 L with h7 | h7
        · rw [Nat.mod_eq_of_lt h7, show L - 1 + 1 = L by omega, Nat.mod_self]
        · have : L = 1 := by omega
          subst this; rfl
      have h8 := Nat.div_add_mod (t - 1) L
      have h9 : t = L * ((t - 1) / L) + ((t - 1) % L + 1) := by omega
      conv_lhs => rw [h9]
      rw [Nat.mul_add_div hL0, Nat.div_eq_of_lt h4]; rfl
    have hne : (0 : Nat) ≠ t % L := fun h => hz h.symm
    have hset : ((List.replicate N (0 : α)).set 0 (g ^ ((t - 1) / L))).set (t % L) 0
        = (List.replicate N (0 : α)).set 0 (g ^ ((t - 1) / L)) := by
      rw [List.set_comm _ _ _ hne, replicate_set_self]
    have hget : ((List.replicate N (0 : α)).set 0 (g ^ ((t - 1) / L)))[t % L]? = some 0 := by
      rw [List.getElem?_set_ne hne, List.getElem?_replicate, if_pos hpN]
    unfold Reverb.ringing
    rw [Reverb.next_atNat _ L (t % L) (t % L) g 0 _ hget hlen hL]
    simp only [combResponse, zero_mul, add_zero, hset, hnext, e1, hz, false_and, if_false]

theorem Reverb.run_ringing {α : Type} [LinearOrderedField α] (N L : Nat) (g : α)
    (h1 : 1 ≤ L) (h2 : L < N) :
    ∀ (m t : Nat), 1 ≤ t →
      Reverb.run (Reverb.ringing N L g t) (List.replicate m 0)
        = .ok (Reverb.ringing N L g (t + m), (List.range' t m).map (combResponse L g)) := by
  intro m
  induction m with
  | zero => intro t _; rfl
  | succ m ih =>
    intro t ht
    rw [List.replicate_succ, Reverb.run, Reverb.next_ringing N L g h1 h2 t ht]
    simp only []
    rw [ih (t + 1) (by omega)]
    simp only [List.range'_succ, List.map_cons]
    rw [show t + 1 + m = t + (m + 1) by omega]

theorem impulse_succ {α : Type} [LinearOrderedField α] (n : Nat) :
    (impulse (n + 1) : List α) = 1 :: List.replicate n 0 := by
  simp only [impulse, List.range_succ_eq_map, List.map_cons, List.map_map, if_true]
  congr 1
  rw [List.eq_replicate_iff]
  refine ⟨by simp, ?_⟩
  intro b hb
  simp only [List.mem_map, Function.comp] at hb
  obtain ⟨a, _, ha⟩ := hb
  simpa using ha.symm

theorem Reverb.run_impulse {α : Type} [LinearOrderedField α] (N L : Nat) (g : α)
    (h1 : 1 ≤ L) (h2 : L < N) (n : Nat) :
    ∃ r, Reverb.run (Reverb.atNat (List.replicate N 0) L g 0 L) (impulse n)
      = .ok (r, (List.range n).map (combResponse L g)) := by
  cases n with
  | zero => exact ⟨_, rfl⟩
  | succ n =>
    refine ⟨Reverb.ringing N L g (1 + n), ?_⟩
    rw [impulse_succ, Reverb.run, Reverb.next_blank_impulse N L g h1 h2]
    simp only []
    rw [Reverb.run_ringing N L g h1 h2 n 1 (Nat.le_refl 1)]
    have h0 : combResponse L g 0 = 0 := by simp [combResponse]
    rw [List.range_eq_range', List.range'_succ, List.map_cons, h0]

theorem combResponse_multiple {α : Type} [LinearOrderedField α] (L : Nat) (g : α) (h1 : 1 ≤ L)
    (k : Nat) (hk : 1 ≤ k) : combResponse L g (k * L) = g ^ (k - 1) := by
  have hpos : 0 < k * L := Nat.mul_pos (by omega) (by omega)
  simp [combResponse, hpos, Nat.mul_div_cancel _ (show 0 < L by omega)]

theorem combResponse_other {α : Type} [LinearOrderedField α] (L : Nat) (g : α) (t : Nat)
    (h : ¬ ∃ k, 1 ≤ k ∧ t = k * L) : combResponse L g t = 0 := by
  unfold combResponse
  rw [if_neg]
  rintro ⟨hz, hpos⟩
  apply h
  refine ⟨t / L, ?_, (Nat.div_mul_cancel (Nat.dvd_of_mod_eq_zero hz)).symm⟩
  rcases Nat.eq_zero_or_pos (t / L) with h0 | h0
  · have := Nat.div_mul_cancel (Nat.dvd_of_mod_eq_zero hz)
    rw [h0] at this
    omega
  · exact h0

/-- C8: for a delay length `1 <= L < 32768` and any feedback gain `g`, a
freshly constructed `Reverb(L, g)` fed `1` at sample `0` and `0` afterwards runs
without fault over any number `n` of samples and returns (exact arithmetic)
`0` at every sample index that is not a positive multiple of `L`, and
`g ^ (k - 1)` at sample index `k * L` for every `k >= 1`. -/
theorem reverb_impulse_response {α : Type} [LinearOrderedField α] (L : Nat) (g : α)
    (h1 : 1 ≤ L) (h2 : L < 32768) (n : Nat) :
    ∃ (r : Reverb α) (ys : List α),
      Reverb.run (Reverb.ctor L g) (impulse n) = .ok (r, ys) ∧ ys.length = n
        ∧ (∀ t, t < n → (¬ ∃ k, 1 ≤ k ∧ t = k * L) → ys[t]? = some 0)
        ∧ (∀ k, 1 ≤ k → k * L < n → ys[k * L]? = some (g ^ (k - 1))) := by
  obtain ⟨r, hr⟩ := Reverb.run_impulse 32768 L g h1 h2 n
  refine ⟨r, _, hr, by simp, ?_, ?_⟩
  · intro t ht hk
    rw [List.getElem?_map, List.getElem?_range ht, Option.map_some',
      combResponse_other L g t hk]
  · intro k hk hlt
    rw [List.getElem?_map, List.getElem?_range hlt, Option.map_some',
      combResponse_multiple L g h1 k hk]

theorem reverb_impulse_response_witness :
    ∃ (r : Reverb ℚ) (ys : List ℚ),
      Reverb.run (Reverb.ctor 3 (1 / 2)) (impulse 10) = .ok (r, ys) ∧ ys.length = 10
        ∧ (∀ t, t < 10 → (¬ ∃ k, 1 ≤ k ∧ t = k * 3) → ys[t]? = some 0)
        ∧ (∀ k, 1 ≤ k → k * 3 < 10 → ys[k * 3]? = some ((1 / 2 : ℚ) ^ (k - 1))) :=
  reverb_impulse_response 3 (1 / 2 : ℚ) (by decide) (by decide) 10

/-! ## `noteOn` with a matching voice, and the reachable organ states -/

theorem Organ.scan_cases {α : Type} (vs : Fin 10 → Voice α) (ch n : Int) :
    ((∀ j : Fin 10, ¬ ((vs j).note = n ∧ (vs j).channel = ch))
        ∧ Organ.scan vs ch n 10 0 = (false, 10))
    ∨ ∃ p : Fin 10, ((vs p).note = n ∧ (vs p).channel = ch)
        ∧ (∀ j : Fin 10, j.val < p.val → ¬ ((vs j).note = n ∧ (vs j).channel = ch))
        ∧ Organ.scan vs ch n 10 0 = (true, p.val) := by
  by_cases hex : ∃ m : Nat, ∃ h : m < 10, (vs ⟨m, h⟩).note = n ∧ (vs ⟨m, h⟩).channel = ch
  · right
    classical
    obtain ⟨hlt, hm⟩ := Nat.find_spec hex
    have hmin : ∀ j : Fin 10, j.val < Nat.find hex →
        ¬ ((vs j).note = n ∧ (vs j).channel = ch) := by
      intro j hj hmj
      exact Nat.find_min hex hj ⟨j.isLt, hmj⟩
    exact ⟨⟨Nat.find hex, hlt⟩, hm, hmin,
      Organ.scan_some vs ch n ⟨Nat.find hex, hlt⟩ hm 10 0 (Nat.zero_le _) (by simpa using hlt)
        (fun j _ hj => hmin j hj)⟩
  · left
    have hno : ∀ j : Fin 10, ¬ ((vs j).note = n ∧ (vs j).channel = ch) :=
      fun j hj => hex ⟨j.val, j.isLt, hj⟩
    exact ⟨hno, Organ.scan_none vs ch n 10 0 rfl (fun j _ => hno j)⟩

theorem Organ.noteOn_match {α : Type} [LinearOrderedField α] (lm : Libm α) (g : Globals α)
    (o : Organ α) (ch n : Int) (p : Fin 10)
    (hs : Organ.scan o.voices ch n 10 0 = (true, p.val)) :
    Organ.noteOn lm g o ch n
      = .ok { voices := Function.update o.voices p (o.voices p).reTrig
              theArbiter := o.theArbiter.reorder p.val } := by
  simp only [Organ.noteOn, hs, p.isLt, dite_true, Fin.eta]

theorem Organ.noteOff_match {α : Type} [LinearOrderedField α]
    (o : Organ α) (ch n : Int) (p : Fin 10)
    (hs : Organ.scan o.voices ch n 10 0 = (true, p.val)) :
    Organ.noteOff o ch n
      = .ok { o with voices := Function.update o.voices p (o.voices p).rel.rel } := by
  simp only [Organ.noteOff, hs, p.isLt, and_self, dite_true, Fin.eta, Function.update_same,
    Function.update_idem]

/-- What a successful `noteOn` does: either it retriggers the first matching
voice and reorders, or nothing matches and it plays the voice `resources[0]`. -/
theorem Organ.noteOn_ok_cases {α : Type} [LinearOrderedField α] (lm : Libm α) (g : Globals α)
    (o o1 : Organ α) (ch n : Int) (h : Organ.noteOn lm g o ch n = .ok o1) :
    (∃ p : Fin 10, ((o.voices p).note = n ∧ (o.voices p).channel = ch)
        ∧ (∀ j : Fin 10, j.val < p.val → ¬ ((o.voices j).note = n ∧ (o.voices j).channel = ch))
        ∧ o1 = { voices := Function.update o.voices p (o.voices p).reTrig
                 theArbiter := o.theArbiter.reorder p.val })
    ∨ (o.NoMatch ch n ∧ ∃ (i : Fin 10) (k : Fin 96), (k.val : Int) = n
        ∧ o.theArbiter.resources.getD 0 0 = i.val
        ∧ o1 = { voices := Function.update o.voices i ((o.voices i).play lm ch n (g.freq_table k))
                 theArbiter := o.theArbiter.shift }) := by
  rcases Organ.scan_cases o.voices ch n with ⟨hno, _⟩ | ⟨p, hp, hmin, hs⟩
  · right
    refine ⟨hno, ?_⟩
    by_cases hn : 0 ≤ n ∧ n < 96
    · by_cases hi : o.theArbiter.resources.getD 0 0 < 10
      · have hk : ((⟨n.toNat, by omega⟩ : Fin 96).val : Int) = n := by simp only []; omega
        have := Organ.noteOn_noMatch lm g o ch n hno ⟨n.toNat, by omega⟩ hk ⟨_, hi⟩ rfl
        rw [this] at h
        exact ⟨⟨_, hi⟩, ⟨n.toNat, by omega⟩, hk, rfl, (Except.ok.inj h).symm⟩
      · exfalso
        simp only [Organ.noteOn, Organ.scan_noMatch o ch n hno, hn, and_self, dite_true, hi,
          dite_false] at h
        cases h
    · rw [Organ.noteOn_noMatch_range lm g o ch n hno hn] at h
      cases h
  · left
    rw [Organ.noteOn_match lm g o ch n p hs] at h
    exact ⟨p, hp, hmin, (Except.ok.inj h).symm⟩

/-- What a successful `noteOff` does: it releases the first matching voice. -/
theorem Organ.noteOff_ok_cases {α : Type} [LinearOrderedField α]
    (o o1 : Organ α) (ch n : Int) (h : Organ.noteOff o ch n = .ok o1) :
    ∃ p : Fin 10, ((o.voices p).note = n ∧ (o.voices p).channel = ch)
      ∧ o1 = { o with voices := Function.update o.voices p (o.voices p).rel.rel } := by
  rcases Organ.scan_cases o.voices ch n with ⟨hno, _⟩ | ⟨p, hp, _, hs⟩
  · have hf : Organ.noteOff o ch n = .error (Fault.voiceIndex 10) := by
      simp [Organ.noteOff, Organ.scan_noMatch o ch n hno]
    rw [hf] at h
    cases h
  · rw [Organ.noteOff_match o ch n p hs] at h
    exact ⟨p, hp, (Except.ok.inj h).symm⟩

theorem Organ.update_same_key {α : Type} (vs : Fin 10 → Voice α) (p : Fin 10) (w : Voice α)
    (hn : w.note = (vs p).note) (hc : w.channel = (vs p).channel) (j : Fin 10) :
    (Function.update vs p w j).note = (vs j).note
      ∧ (Function.update vs p w j).channel = (vs j).channel := by
  by_cases hj : j = p
  · subst hj
    rw [Function.update_same]
    exact ⟨hn, hc⟩
  · rw [Function.update_noteq hj]
    exact ⟨rfl, rfl⟩

theorem Organ.keysDistinct_of_same_keys {α : Type} (o o1 : Organ α)
    (h : ∀ j, (o1.voices j).note = (o.voices j).note
      ∧ (o1.voices j).channel = (o.voices j).channel)
    (hd : o.KeysDistinct) : o1.KeysDistinct := by
  intro i j hi hn hc
  rw [(h i).1] at hi
  rw [(h i).1, (h j).1] at hn
  rw [(h i).2, (h j).2] at hc
  exact hd i j hi hn hc

theorem Organ.keysDistinct_play {α : Type} [LinearOrderedField α] (lm : Libm α) (o : Organ α)
    (ch n : Int) (f : α) (i : Fin 10) (hno : o.NoMatch ch n) (hd : o.KeysDistinct)
    (arb : Arbiter) :
    Organ.KeysDistinct
      { voices := Function.update o.voices i ((o.voices i).play lm ch n f), theArbiter := arb } := by
  intro a b ha hn hc
  simp only [] at ha hn hc
  by_cases hai : a = i
  · by_cases hbi : b = i
    · rw [hai, hbi]
    · exfalso
      rw [hai, Function.update_same, Function.update_noteq hbi] at hn hc
      exact hno b ⟨hn.symm, hc.symm⟩
  · by_cases hbi : b = i
    · exfalso
      rw [hbi, Function.update_same, Function.update_noteq hai] at hn hc
      exact hno a ⟨hn, hc⟩
    · rw [Function.update_noteq hai] at ha
      rw [Function.update_noteq hai, Function.update_noteq hbi] at hn hc
      exact hd a b ha hn hc

/-- In every reachable organ state the arbiter ordering is a permutation of
`0..9` and the assigned `(channel, note)` pairs are pairwise distinct. -/
theorem Organ.reachable_inv {α : Type} [LinearOrderedField α] (lm : Libm α) (g : Globals α)
    (o : Organ α) (h : Organ.Reachable lm g o) :
    o.theArbiter.resources.Perm (List.range 10) ∧ o.KeysDistinct := by
  induction h with
  | ctor mem =>
    refine ⟨?_, ?_⟩
    · show Arbiter.ctor.resources.Perm (List.range 10)
      rw [Arbiter.ctor_resources]
    · intro i j hi
      exact absurd rfl hi
  | @noteOn o o1 ch n _ hok ih =>
    rcases Organ.noteOn_ok_cases lm g _ _ ch n hok with ⟨p, _, _, rfl⟩ | ⟨hno, i, k, _, _, rfl⟩
    · exact ⟨Arbiter.reorder_perm _ p.val p.isLt ih.1,
        Organ.keysDistinct_of_same_keys _ _
          (fun j => Organ.update_same_key o.voices p (o.voices p).reTrig rfl rfl j) ih.2⟩
    · exact ⟨Arbiter.shift_perm _ ih.1, Organ.keysDistinct_play lm _ ch n _ i hno ih.2 _⟩
  | @noteOff o o1 ch n _ hok ih =>
    obtain ⟨p, _, rfl⟩ := Organ.noteOff_ok_cases _ _ ch n hok
    exact ⟨ih.1, Organ.keysDistinct_of_same_keys _ _
      (fun j => Organ.update_same_key o.voices p (o.voices p).rel.rel rfl rfl j) ih.2⟩
  | setReg r _ hok ih =>
    unfold Organ.setReg at hok
    split at hok
    · have := (Except.ok.inj hok).symm
      subst this
      exact ⟨ih.1, Organ.keysDistinct_of_same_keys _ _ (fun j => ⟨rfl, rfl⟩) ih.2⟩
    · cases hok
  | next _ ih =>
    exact ⟨ih.1, Organ.keysDistinct_of_same_keys _ _ (fun j => ⟨rfl, rfl⟩) ih.2⟩

theorem Arbiter.reorder_last (a : Arbiter) (v : Nat) (hv : v < 10)
    (h : a.resources.Perm (List.range 10)) :
    (a.reorder v).resources[9]? = some v := by
  have hmem : v ∈ a.resources := h.symm.subset (List.mem_range.mpr hv)
  have hlen : a.resources.length = 10 := by simpa using h.length_eq
  rw [Arbiter.reorder_eq a v hlen hmem]
  have h9 : (a.resources.erase v).length = 9 := by
    rw [List.length_erase_of_mem hmem, hlen]
  rw [List.getElem?_append_right (by omega), h9]
  rfl

/-- C4: in an organ state reachable from construction in which slot `i` holds
`(channel, note)` (an assigned note, not the sentinel `-1`),
`noteOn(channel, note)` allocates no slot: it succeeds, only retriggers the
envelope of voice `i`, leaves note and channel of every voice as they were,
and afterwards position 9 of the arbiter ordering is `i`. -/
theorem noteOn_retrigger_keeps_slot {α : Type} [LinearOrderedField α] (lm : Libm α)
    (g : Globals α) (o : Organ α) (hr : Organ.Reachable lm g o)
    (theChannel theNote : Int) (i : Fin 10)
    (hnote : (o.voices i).note = theNote) (hchan : (o.voices i).channel = theChannel)
    (hassigned : theNote ≠ -1) :
    ∃ o1, Organ.noteOn lm g o theChannel theNote = .ok o1
      ∧ o1.voices = Function.update o.voices i (o.voices i).reTrig
      ∧ (∀ j, (o1.voices j).note = (o.voices j).note
          ∧ (o1.voices j).channel = (o.voices j).channel)
      ∧ o1.theArbiter.resources[9]? = some i.val := by
  obtain ⟨hperm, hd⟩ := Organ.reachable_inv lm g o hr
  have hs : Organ.scan o.voices theChannel theNote 10 0 = (true, i.val) := by
    apply Organ.scan_some o.voices theChannel theNote i ⟨hnote, hchan⟩ 10 0 (Nat.zero_le _)
      (by have := i.isLt; omega)
    intro j _ hj hm
    have hji : j = i :=
      hd j i (by rw [hm.1]; exact hassigned) (hm.1.trans hnote.symm) (hm.2.trans hchan.symm)
    rw [hji] at hj
    exact Nat.lt_irrefl _ hj
  exact ⟨_, Organ.noteOn_match lm g o theChannel theNote i hs, rfl,
    fun j => Organ.update_same_key o.voices i (o.voices i).reTrig rfl rfl j,
    Arbiter.reorder_last _ i.val i.isLt hperm⟩

theorem demoOrgan1_reachable :
    Organ.Reachable demoLibm (Globals.init demoLibm) demoOrgan1 :=
  Organ.Reachable.noteOn 0 60 (Organ.Reachable.ctor (fun _ => zeroVoice)) rfl

theorem noteOn_retrigger_keeps_slot_witness :
    ∃ o1, Organ.noteOn demoLibm (Globals.init demoLibm) demoOrgan1 0 60 = .ok o1
      ∧ o1.voices = Function.update demoOrgan1.voices 0 (demoOrgan1.voices 0).reTrig
      ∧ (∀ j, (o1.voices j).note = (demoOrgan1.voices j).note
          ∧ (o1.voices j).channel = (demoOrgan1.voices j).channel)
      ∧ o1.theArbiter.resources[9]? = some (0 : Fin 10).val :=
  noteOn_retrigger_keeps_slot demoLibm (Globals.init demoLibm) demoOrgan1 demoOrgan1_reachable
    0 60 0 rfl rfl (by decide)

/-! ## Distinct notes on a fresh organ: round-robin allocation -/

theorem Organ.noteOns_append {α : Type} [LinearOrderedField α] (lm : Libm α) (g : Globals α) :
    ∀ (xs ys : List (Int × Int)) (o o1 : Organ α),
      Organ.noteOns lm g o xs = .ok o1 →
      Organ.noteOns lm g o (xs ++ ys) = Organ.noteOns lm g o1 ys := by
  intro xs
  induction xs with
  | nil =>
    intro ys o o1 h
    simp only [Organ.noteOns] at h
    rw [Except.ok.inj h]
    rfl
  | cons c cs ih =>
    intro ys o o1 h
    simp only [Organ.noteOns, List.cons_append] at h ⊢
    cases hc : Organ.noteOn lm g o c.1 c.2 with
    | error e => rw [hc] at h; cases h
    | ok o2 =>
      rw [hc] at h
      simp only [] at h ⊢
      exact ih ys o2 o1 h

theorem rotate_range_head (r : Nat) (hr : r < 10) :
    ((List.range 10).rotate r).getD 0 0 = r := by
  have h : ∀ k : Fin 10, ((List.range 10).rotate k.val).getD 0 0 = k.val := by decide
  exact h ⟨r, hr⟩

theorem rotate_range_shift (r : Nat) (hr : r < 10) :
    ((List.range 10).rotate r).rotate 1 = (List.range 10).rotate ((r + 1) % 10) := by
  have h : ∀ k : Fin 10,
      ((List.range 10).rotate k.val).rotate 1 = (List.range 10).rotate ((k.val + 1) % 10) := by
    decide
  exact h ⟨r, hr⟩

theorem exists_recent_call (m j : Nat) (hj : j < 10) (hjm : j < m) :
    ∃ k, k < m ∧ m ≤ k + 10 ∧ k % 10 = j :=
  ⟨m - 1 - (m - 1 - j) % 10, by omega, by omega, by omega⟩

/-- One more `noteOn` with a pair that is new among the last calls: the step
of `Organ.noteOns_fresh`. -/
theorem Organ.noteOn_fresh_step {α : Type} [LinearOrderedField α] (lm : Libm α) (g : Globals α)
    (cs : List (Int × Int)) (hd : cs.Nodup) (m : Nat) (c : Int × Int) (hcm : cs[m]? = some c)
    (hrange : 0 ≤ c.2 ∧ c.2 < 96) (o : Organ α)
    (harb : o.theArbiter.resources = (List.range 10).rotate (m % 10))
    (hkeys : ∀ (k : Nat) (j : Fin 10), k < m → m ≤ k + 10 → j.val = k % 10 →
      cs[k]? = some ((o.voices j).channel, (o.voices j).note))
    (hfree : ∀ j : Fin 10, m ≤ j.val → (o.voices j).note = -1) :
    ∃ o1, Organ.noteOn lm g o c.1 c.2 = .ok o1
      ∧ o1.theArbiter.resources = (List.range 10).rotate ((m + 1) % 10)
      ∧ (∀ (k : Nat) (j : Fin 10), k < m + 1 → m + 1 ≤ k + 10 → j.val = k % 10 →
          cs[k]? = some ((o1.voices j).channel, (o1.voices j).note))
      ∧ (∀ j : Fin 10, m + 1 ≤ j.val → (o1.voices j).note = -1)
      ∧ ∃ n96 : Fin 96, (n96.val : Int) = c.2
          ∧ o1.voices = Function.update o.voices ⟨m % 10, Nat.mod_lt m (by decide)⟩
              ((o.voices ⟨m % 10, Nat.mod_lt m (by decide)⟩).play lm c.1 c.2
                (g.freq_table n96)) := by
  have hmlt : m < cs.length := by
    by_contra hcon
    rw [List.getElem?_eq_none (by omega)] at hcm
    cases hcm
  have hno : o.NoMatch c.1 c.2 := by
    intro j hj
    by_cases hjm : j.val < m
    · obtain ⟨k, hk1, hk2, hk3⟩ := exists_recent_call m j.val j.isLt hjm
      have hk := hkeys k j hk1 hk2 hk3.symm
      rw [hj.1, hj.2] at hk
      exact (List.nodup_iff_getElem?_ne_getElem?.mp hd) k m hk1 hmlt (hk.trans hcm.symm)
    · have h1 := hfree j (by omega)
      rw [hj.1] at h1
      omega
  have hm10 : m % 10 < 10 := Nat.mod_lt _ (by decide)
  obtain ⟨n96, hn96⟩ : ∃ k : Fin 96, (k.val : Int) = c.2 :=
    ⟨⟨c.2.toNat, by omega⟩, by simp only []; omega⟩
  have hhead : o.theArbiter.resources.getD 0 0 = (⟨m % 10, hm10⟩ : Fin 10).val := by
    rw [harb]; exact rotate_range_head _ hm10
  refine ⟨_, Organ.noteOn_noMatch lm g o c.1 c.2 hno n96 hn96 ⟨m % 10, hm10⟩ hhead, ?_, ?_, ?_,
    ⟨n96, hn96, rfl⟩⟩
  · show o.theArbiter.shift.resources = _
    have hlen : o.theArbiter.resources.length = 10 := by
      rw [harb, List.length_rotate, List.length_range]
    rw [Arbiter.shift_eq _ hlen, harb, rotate_range_shift _ hm10, Nat.add_mod, Nat.mod_mod,
      ← Nat.add_mod]
  · intro k j hk1 hk2 hjk
    show cs[k]? = some ((Function.update o.voices _ _ j).channel,
      (Function.update o.voices _ _ j).note)
    by_cases hkm : k = m
    · have hj : j = ⟨m % 10, hm10⟩ := Fin.ext (by rw [hjk, hkm])
      rw [hj, Function.update_same, hkm, hcm]
      rfl
    · have hne : j ≠ ⟨m % 10, hm10⟩ := by
        intro h
        have h2 : j.val = m % 10 := congrArg Fin.val h
        omega
      rw [Function.update_noteq hne]
      exact hkeys k j (by omega) (by omega) hjk
  · intro j hj
    show (Function.update o.voices _ _ j).note = -1
    have hne : j ≠ ⟨m % 10, hm10⟩ := by
      intro h
      have h2 : j.val = m % 10 := congrArg Fin.val h
      have h3 := j.isLt
      omega
    rw [Function.update_noteq hne]
    exact hfree j (by omega)

/-- The state of a fresh organ after the first `m` of a list of pairwise
distinct `noteOn` calls with notes in `0..95`: the arbiter ordering is the
identity rotated by `m`, the slot `k % 10` holds the pair of call `k` for each
of the last ten calls `k`, and the slots `m..9` are still unassigned. -/
theorem Organ.noteOns_fresh {α : Type} [LinearOrderedField α] (lm : Libm α) (g : Globals α)
    (mem : Fin 10 → Voice α) (cs : List (Int × Int)) (hd : cs.Nodup)
    (hr : ∀ c ∈ cs, 0 ≤ c.2 ∧ c.2 < 96) :
    ∀ m, m ≤ cs.length →
      ∃ o, Organ.noteOns lm g (Organ.ctor lm g mem) (cs.take m) = .ok o
        ∧ o.theArbiter.resources = (List.range 10).rotate (m % 10)
        ∧ (∀ (k : Nat) (j : Fin 10), k < m → m ≤ k + 10 → j.val = k % 10 →
            cs[k]? = some ((o.voices j).channel, (o.voices j).note))
        ∧ (∀ j : Fin 10, m ≤ j.val → (o.voices j).note = -1) := by
  intro m
  induction m with
  | zero =>
    intro _
    refine ⟨Organ.ctor lm g mem, rfl, ?_, ?_, ?_⟩
    · show Arbiter.ctor.resources = _
      rw [Arbiter.ctor_resources]; rfl
    · intro k j hk; omega
    · intro j _; rfl
  | succ m ih =>
    intro hm
    obtain ⟨o, hrun, harb, hkeys, hfree⟩ := ih (by omega)
    have hmlt : m < cs.length := by omega
    obtain ⟨c, hcm, hmem⟩ : ∃ c, cs[m]? = some c ∧ c ∈ cs :=
      ⟨cs[m], List.getElem?_eq_getElem hmlt, List.getElem_mem hmlt⟩
    have hrange := hr c hmem
    obtain ⟨o1, hstep, h1, h2, h3, _⟩ :=
      Organ.noteOn_fresh_step lm g cs hd m c hcm hrange o harb hkeys hfree
    refine ⟨o1, ?_, h1, h2, h3⟩
    rw [List.take_succ, hcm, Option.toList, Organ.noteOns_append lm g _ _ _ _ hrun]
    simp only [Organ.noteOns, hstep]

/-- C3: on a freshly constructed organ, along any sequence of `noteOn` calls
with pairwise distinct `(channel, note)` pairs and notes in `0..95`, the `k`-th
call (`k = 0, 1, 2, ...`) runs without fault and plays its note on voice slot
`k mod 10`, leaving the other nine voices as they were. That slot is still
unassigned when `k < 10`, and from `k = 10` on it holds the pair of call
`k - 10`, which the call replaces: the 11th call replaces the note of the
1st, the 12th that of the 2nd, and so on. -/
theorem noteOn_distinct_round_robin {α : Type} [LinearOrderedField α] (lm : Libm α)
    (g : Globals α) (mem : Fin 10 → Voice α) (cs : List (Int × Int)) (hd : cs.Nodup)
    (hr : ∀ c ∈ cs, 0 ≤ c.2 ∧ c.2 < 96) (k : Nat) (c : Int × Int) (hk : cs[k]? = some c) :
    ∃ (o o1 : Organ α) (n96 : Fin 96),
      Organ.noteOns lm g (Organ.ctor lm g mem) (cs.take k) = .ok o
        ∧ Organ.noteOn lm g o c.1 c.2 = .ok o1
        ∧ (n96.val : Int) = c.2
        ∧ o1.voices = Function.update o.voices ⟨k % 10, Nat.mod_lt k (by decide)⟩
            ((o.voices ⟨k % 10, Nat.mod_lt k (by decide)⟩).play lm c.1 c.2 (g.freq_table n96))
        ∧ (o1.voices ⟨k % 10, Nat.mod_lt k (by decide)⟩).key = c
        ∧ (k < 10 → (o.voices ⟨k % 10, Nat.mod_lt k (by decide)⟩).note = -1)
        ∧ (10 ≤ k →
            cs[k - 10]? = some (o.voices ⟨k % 10, Nat.mod_lt k (by decide)⟩).key) := by
  have hklt : k < cs.length := by
    by_contra hcon
    rw [List.getElem?_eq_none (by omega)] at hk
    cases hk
  have hmem : c ∈ cs := by
    rw [List.getElem?_eq_getElem hklt] at hk
    rw [← Option.some.inj hk]
    exact List.getElem_mem hklt
  obtain ⟨o, hrun, harb, hkeys, hfree⟩ :=
    Organ.noteOns_fresh lm g mem cs hd hr k (Nat.le_of_lt hklt)
  obtain ⟨o1, hstep, _, hkeys1, _, n96, hn96, hvoices⟩ :=
    Organ.noteOn_fresh_step lm g cs hd k c hk (hr c hmem) o harb hkeys hfree
  refine ⟨o, o1, n96, hrun, hstep, hn96, hvoices, ?_, ?_, ?_⟩
  · have h := hkeys1 k ⟨k % 10, Nat.mod_lt k (by decide)⟩ (by omega) (by omega) rfl
    rw [hk] at h
    exact (Option.some.inj h).symm
  · intro h10
    exact hfree _ (by simp only []; omega)
  · intro h10
    exact hkeys (k - 10) ⟨k % 10, Nat.mod_lt k (by decide)⟩ (by omega) (by omega)
      (by simp only []; omega)

theorem noteOn_distinct_round_robin_witness :
    ∃ (o o1 : Organ ℚ) (n96 : Fin 96),
      Organ.noteOns demoLibm (Globals.init demoLibm) (Organ.ctor demoLibm (Globals.init demoLibm)
          (fun _ => zeroVoice)) (demoCalls.take 10) = .ok o
        ∧ Organ.noteOn demoLibm (Globals.init demoLibm) o ((0, 11) : Int × Int).1
            ((0, 11) : Int × Int).2 = .ok o1
        ∧ (n96.val : Int) = ((0, 11) : Int × Int).2
        ∧ o1.voices = Function.update o.voices ⟨10 % 10, Nat.mod_lt 10 (by decide)⟩
            ((o.voices ⟨10 % 10, Nat.mod_lt 10 (by decide)⟩).play demoLibm ((0, 11) : Int × Int).1
              ((0, 11) : Int × Int).2 ((Globals.init demoLibm).freq_table n96))
        ∧ (o1.voices ⟨10 % 10, Nat.mod_lt 10 (by decide)⟩).key = (0, 11)
        ∧ (10 < 10 → (o.voices ⟨10 % 10, Nat.mod_lt 10 (by decide)⟩).note = -1)
        ∧ (10 ≤ 10 →
            demoCalls[10 - 10]? = some (o.voices ⟨10 % 10, Nat.mod_lt 10 (by decide)⟩).key) :=
  noteOn_distinct_round_robin demoLibm (Globals.init demoLibm) (fun _ => zeroVoice) demoCalls
    (by decide) (by decide) 10 (0, 11) rfl

/-! ## The envelope after `rel()` -/

theorem Voice.next_released {α : Type} [LinearOrderedField α] (v : Voice α)
    (hv : v.volume = 0) :
    v.next.1.volume = 0 ∧ v.next.1.release = v.release
      ∧ v.next.1.ampl
          = if 0 < v.ampl then
              (if v.ampl - v.release < 2 / 10 ∧ -(2 / 10) < v.ampl - v.release then 0
               else v.ampl - v.release)
            else v.ampl := by
  refine ⟨hv, rfl, ?_⟩
  simp only [Voice.next, hv, lt_self_iff_false, false_and, if_false, true_and]

theorem Voice.after_silent {α : Type} [LinearOrderedField α] :
    ∀ (m : Nat) (v : Voice α), v.volume = 0 → v.ampl = 0 → (v.after m).ampl = 0 := by
  intro m
  induction m with
  | zero => intro v _ ha; exact ha
  | succ m ih =>
    intro v hv ha
    obtain ⟨h1, _, h3⟩ := Voice.next_released v hv
    rw [ha, if_neg (lt_irrefl 0)] at h3
    exact ih v.next.1 h1 h3

theorem Voice.after_decay {α : Type} [LinearOrderedField α] :
    ∀ (n : Nat) (v : Voice α), v.volume = 0 → v.release = 8 / 10000 → 0 ≤ v.ampl →
      v.ampl ≤ 2 / 10 + (n : α) * (8 / 10000) →
      ∃ k, k ≤ n + 1 ∧ ∀ m, k ≤ m → (v.after m).ampl = 0 := by
  intro n
  induction n with
  | zero =>
    intro v hv hr h0 h1
    obtain ⟨e1, _, e3⟩ := Voice.next_released v hv
    rcases eq_or_lt_of_le h0 with hz | hpos
    · exact ⟨0, by omega, fun m _ => Voice.after_silent m v hv hz.symm⟩
    · refine ⟨1, by omega, fun m hm => ?_⟩
      obtain ⟨m, rfl⟩ : ∃ j, m = j + 1 := ⟨m - 1, by omega⟩
      have hz : v.next.1.ampl = 0 := by
        rw [e3, if_pos hpos, hr, if_pos]
        simp only [Nat.cast_zero, zero_mul, add_zero] at h1
        constructor <;> linarith
      exact Voice.after_silent m v.next.1 e1 hz
  | succ n ih =>
    intro v hv hr h0 h1
    obtain ⟨e1, e2, e3⟩ := Voice.next_released v hv
    rcases eq_or_lt_of_le h0 with hz | hpos
    · exact ⟨0, by omega, fun m _ => Voice.after_silent m v hv hz.symm⟩
    · rw [if_pos hpos, hr] at e3
      by_cases hband : v.ampl - 8 / 10000 < 2 / 10 ∧ -(2 / 10) < v.ampl - 8 / 10000
      · rw [if_pos hband] at e3
        refine ⟨1, by omega, fun m hm => ?_⟩
        obtain ⟨m, rfl⟩ : ∃ j, m = j + 1 := ⟨m - 1, by omega⟩
        exact Voice.after_silent m v.next.1 e1 e3
      · rw [if_neg hband] at e3
        have hge : 2 / 10 ≤ v.ampl - 8 / 10000 := by
          by_contra hcon
          exact hband ⟨lt_of_not_le hcon, by linarith⟩
        have hle : v.next.1.ampl ≤ 2 / 10 + (n : α) * (8 / 10000) := by
          rw [e3]
          push_cast at h1
          linarith
        obtain ⟨k, hk, hzero⟩ := ih v.next.1 e1 (e2.trans hr) (by rw [e3]; linarith) hle
        refine ⟨k + 1, by omega, fun m hm => ?_⟩
        obtain ⟨m, rfl⟩ : ∃ j, m = j + 1 := ⟨m - 1, by omega⟩
        exact hzero m (by omega)

/-- C11: for a voice with envelope amplitude `0 <= a <= 1`, after `rel()` there
is a `k <= 1001` such that after `k` calls of `next()`, and after every larger
number of calls, the amplitude is exactly `0` (exact arithmetic, release step
`0.0008`, dead-band `0.2`; no `play()` or `reTrig()` in between). -/
theorem envelope_release_reaches_zero {α : Type} [LinearOrderedField α] (v : Voice α)
    (h0 : 0 ≤ v.ampl) (h1 : v.ampl ≤ 1) :
    ∃ k, k ≤ 1001 ∧ ∀ m, k ≤ m → (v.rel.after m).ampl = 0 := by
  apply Voice.after_decay 1000 v.rel rfl rfl h0
  show v.ampl ≤ 2 / 10 + ((1000 : Nat) : α) * (8 / 10000)
  push_cast
  linarith

theorem envelope_release_reaches_zero_witness :
    ∃ k, k ≤ 1001 ∧ ∀ m, k ≤ m → (({ zeroVoice with ampl := 1 } : Voice ℚ).rel.after m).ampl = 0 :=
  envelope_release_reaches_zero ({ zeroVoice with ampl := 1 } : Voice ℚ) (by decide) (by decide)

/-! ## The oscillator in real arithmetic -/

theorem Oscillator.after_set_real (lm : Libm ℝ) (hc : lm.cos = Real.cos)
    (hs : lm.sin = Real.sin) (o : Oscillator ℝ) (f A : ℝ) :
    ∀ n : Nat,
      ((o.set lm f A).after n).a1 = 2 * Real.cos f
        ∧ ((o.set lm f A).after n).val0 = A * Real.sin ((n : ℝ) * f)
        ∧ ((o.set lm f A).after n).val1 = A * Real.sin (((n : ℝ) - 1) * f) := by
  intro n
  induction n with
  | zero =>
    refine ⟨?_, ?_, ?_⟩
    · simp only [Oscillator.after, Oscillator.set, hc]
    · simp [Oscillator.after, Oscillator.set]
    · simp only [Oscillator.after, Oscillator.set, hs, Nat.cast_zero, zero_sub, neg_one_mul,
        neg_mul, one_mul, Real.sin_neg, mul_neg]
  | succ n ih =>
    obtain ⟨h1, h2, h3⟩ := ih
    refine ⟨?_, ?_, ?_⟩
    · simp only [Oscillator.after, Oscillator.next, h1]
    · simp only [Oscillator.after, Oscillator.next, h1, h2, h3]
      have e1 : ((n + 1 : Nat) : ℝ) * f = (n : ℝ) * f + f := by push_cast; ring
      have e2 : ((n : ℝ) - 1) * f = (n : ℝ) * f - f := by ring
      rw [e1, e2, Real.sin_add, Real.sin_sub]
      ring
    · simp only [Oscillator.after, Oscillator.next, h2]
      congr 2
      push_cast
      ring

/-- C12: in real arithmetic (`cos` and `sin` of the math library the real
functions), after `Oscillator::set(f, A)` the `n`-th call of
`Oscillator::next()` returns `A * sin(n * f)` for every `n >= 1`: a sinusoid
of amplitude `A` and zero phase, and the returned values obey
`y[n+2] = 2 cos(f) * y[n+1] - y[n]`. -/
theorem oscillator_sine (lm : Libm ℝ) (hc : lm.cos = Real.cos) (hs : lm.sin = Real.sin)
    (o : Oscillator ℝ) (f A : ℝ) (n : Nat) (hn : 1 ≤ n) :
    (o.set lm f A).sample n = A * Real.sin ((n : ℝ) * f)
      ∧ (o.set lm f A).sample (n + 2)
          = 2 * Real.cos f * (o.set lm f A).sample (n + 1) - (o.set lm f A).sample n := by
  have key : ∀ k : Nat, 1 ≤ k → (o.set lm f A).sample k = A * Real.sin ((k : ℝ) * f) := by
    intro k hk
    obtain ⟨j, rfl⟩ : ∃ j, k = j + 1 := ⟨k - 1, by omega⟩
    exact (Oscillator.after_set_real lm hc hs o f A (j + 1)).2.1
  refine ⟨key n hn, ?_⟩
  rw [key n hn, key (n + 1) (by omega), key (n + 2) (by omega)]
  have e1 : ((n + 2 : Nat) : ℝ) * f = ((n : ℝ) * f + f) + f := by push_cast; ring
  have e2 : ((n + 1 : Nat) : ℝ) * f = (n : ℝ) * f + f := by push_cast; ring
  rw [e1, e2, Real.sin_add ((n : ℝ) * f + f) f, Real.cos_add, Real.sin_add]
  have hsq := Real.sin_sq_add_cos_sq f
  have h2 : Real.sin f * Real.sin f = 1 - Real.cos f * Real.cos f := by nlinarith
  linear_combination (-A * Real.sin ((n : ℝ) * f)) * h2

theorem oscillator_sine_witness :
    (((⟨0, 0, 0, 0, 0, 0⟩ : Oscillator ℝ).set ⟨Real.cos, Real.sin, fun x _ => x⟩ 1 1024).sample 1
        = 1024 * Real.sin (((1 : Nat) : ℝ) * 1))
      ∧ ((⟨0, 0, 0, 0, 0, 0⟩ : Oscillator ℝ).set ⟨Real.cos, Real.sin, fun x _ => x⟩ 1 1024).sample
            (1 + 2)
          = 2 * Real.cos 1
              * ((⟨0, 0, 0, 0, 0, 0⟩ : Oscillator ℝ).set ⟨Real.cos, Real.sin, fun x _ => x⟩
                  1 1024).sample (1 + 1)
            - ((⟨0, 0, 0, 0, 0, 0⟩ : Oscillator ℝ).set ⟨Real.cos, Real.sin, fun x _ => x⟩
                  1 1024).sample 1 :=
  oscillator_sine ⟨Real.cos, Real.sin, fun x _ => x⟩ rfl rfl ⟨0, 0, 0, 0, 0, 0⟩ 1 1024 1
    (by decide)

/-! ## `reorder` and `shift` spelled out -/

theorem erase_eq_take_drop (v : Nat) :
    ∀ l : List Nat, v ∈ l →
      l.erase v = l.take (l.indexOf v) ++ l.drop (l.indexOf v + 1) := by
  intro l
  induction l with
  | nil => intro h; cases h
  | cons a l ih =>
    intro h
    by_cases hav : a = v
    · subst hav
      simp
    · have hmem : v ∈ l := by
        rcases List.mem_cons.mp h with h1 | h1
        · exact absurd h1.symm hav
        · exact h1
      rw [List.erase_cons_tail (by simpa using hav), List.indexOf_cons_ne _ hav, ih hmem]
      rfl

/-- C13: for an arbiter ordering that is a permutation of `0..9` and a slot
index `v` in `0..9`, `Arbiter::reorder(v)` yields the ordering with `v` taken
out of its position `p` and put at position 9, the other nine entries keeping
their relative order. -/
theorem reorder_moves_to_back (a : Arbiter) (v : Nat) (hv : v < 10)
    (hp : a.resources.Perm (List.range 10)) :
    ∃ p, p < 10 ∧ a.resources[p]? = some v
      ∧ (a.reorder v).resources = a.resources.take p ++ a.resources.drop (p + 1) ++ [v]
      ∧ (a.reorder v).resources = a.resources.filter (fun x => x != v) ++ [v]
      ∧ (a.reorder v).resources[9]? = some v := by
  have hmem : v ∈ a.resources := hp.symm.subset (List.mem_range.mpr hv)
  have hlen : a.resources.length = 10 := by simpa using hp.length_eq
  have hnd : a.resources.Nodup := hp.symm.nodup (List.nodup_range 10)
  have hidx : a.resources.indexOf v < a.resources.length := List.indexOf_lt_length.mpr hmem
  refine ⟨a.resources.indexOf v, by omega, List.getElem?_indexOf hmem, ?_, ?_,
    Arbiter.reorder_last a v hv hp⟩
  · rw [Arbiter.reorder_eq a v hlen hmem, erase_eq_take_drop v _ hmem]
  · rw [Arbiter.reorder_eq a v hlen hmem, hnd.erase_eq_filter]

theorem reorder_moves_to_back_witness :
    ∃ p, p < 10 ∧ Arbiter.ctor.shift.resources[p]? = some 3
      ∧ (Arbiter.ctor.shift.reorder 3).resources
          = Arbiter.ctor.shift.resources.take p ++ Arbiter.ctor.shift.resources.drop (p + 1) ++ [3]
      ∧ (Arbiter.ctor.shift.reorder 3).resources
          = Arbiter.ctor.shift.resources.filter (fun x => x != 3) ++ [3]
      ∧ (Arbiter.ctor.shift.reorder 3).resources[9]? = some 3 :=
  reorder_moves_to_back Arbiter.ctor.shift 3 (by decide) (by decide)

theorem Arbiter.shift_index (a : Arbiter) (h : a.resources.length = 10) :
    (∀ t, t < 9 → a.shift.resources[t]? = a.resources[t + 1]?)
      ∧ a.shift.resources[9]? = a.resources[0]? := by
  obtain ⟨a0, a1, a2, a3, a4, a5, a6, a7, a8, a9, hl⟩ := list_len10 a.resources h
  have hs : a.shift.resources = [a1, a2, a3, a4, a5, a6, a7, a8, a9, a0] := by
    rw [Arbiter.shift_eq a h, hl]; rfl
  rw [hs, hl]
  refine ⟨fun t ht => ?_, rfl⟩
  interval_cases t <;> rfl

/-- C14: for an arbiter ordering `r` (a permutation of `0..9`) and a
`noteOn(channel, note)` with `note` in `0..95` that matches no voice slot, the
call succeeds, the voice played is `r[0]`, every other voice is left as it
was, and the new ordering is `r` rotated left by one: `new[t] = r[t+1]` for
`0 <= t < 9` and `new[9] = r[0]`. -/
theorem noteOn_allocates_oldest {α : Type} [LinearOrderedField α] (lm : Libm α) (g : Globals α)
    (o : Organ α) (theChannel theNote : Int) (hno : o.NoMatch theChannel theNote)
    (hn : 0 ≤ theNote ∧ theNote < 96) (hp : o.theArbiter.resources.Perm (List.range 10)) :
    ∃ (i : Fin 10) (k : Fin 96) (o1 : Organ α),
      o.theArbiter.resources[0]? = some i.val ∧ (k.val : Int) = theNote
        ∧ Organ.noteOn lm g o theChannel theNote = .ok o1
        ∧ o1.voices i = (o.voices i).play lm theChannel theNote (g.freq_table k)
        ∧ (∀ j, j ≠ i → o1.voices j = o.voices j)
        ∧ (∀ t, t < 9 → o1.theArbiter.resources[t]? = o.theArbiter.resources[t + 1]?)
        ∧ o1.theArbiter.resources[9]? = o.theArbiter.resources[0]? := by
  have hlen : o.theArbiter.resources.length = 10 := by simpa using hp.length_eq
  have hk : ((⟨theNote.toNat, by omega⟩ : Fin 96).val : Int) = theNote := by
    simp only []; omega
  have hhead : o.theArbiter.resources[0]? = some (o.theArbiter.resources.getD 0 0) := by
    obtain ⟨a0, a1, a2, a3, a4, a5, a6, a7, a8, a9, hl⟩ := list_len10 _ hlen
    rw [hl]; rfl
  obtain ⟨h1, h2⟩ := Arbiter.shift_index o.theArbiter hlen
  exact ⟨⟨_, Arbiter.head_lt _ hp⟩, ⟨theNote.toNat, by omega⟩, _, hhead, hk,
    Organ.noteOn_noMatch lm g o _ _ hno _ hk _ rfl, Function.update_same _ _ _,
    fun j hj => Function.update_noteq hj _ _, h1, h2⟩

theorem noteOn_allocates_oldest_witness :
    ∃ (i : Fin 10) (k : Fin 96) (o1 : Organ ℚ),
      demoOrgan1.theArbiter.resources[0]? = some i.val ∧ (k.val : Int) = 61
        ∧ Organ.noteOn demoLibm (Globals.init demoLibm) demoOrgan1 0 61 = .ok o1
        ∧ o1.voices i
            = (demoOrgan1.voices i).play demoLibm 0 61 ((Globals.init demoLibm).freq_table k)
        ∧ (∀ j, j ≠ i → o1.voices j = demoOrgan1.voices j)
        ∧ (∀ t, t < 9 → o1.theArbiter.resources[t]? = demoOrgan1.theArbiter.resources[t + 1]?)
        ∧ o1.theArbiter.resources[9]? = demoOrgan1.theArbiter.resources[0]? :=
  noteOn_allocates_oldest demoLibm (Globals.init demoLibm) demoOrgan1 0 61
    (by intro i; revert i; decide) (by decide) (by decide)

/-! ## Running status and resynchronisation of the MIDI parser -/

theorem midiBytes_pairs_noteOn :
    ∀ (ps : List (Nat × Nat)) (s : MidiState), s.midi_count = 1 → s.midi_cmd = 0x90 →
      (∀ p ∈ ps, p.1 < 128 ∧ p.2 < 128) →
      (midiBytes s (dataBytes ps)).2
        = ps.map (fun p =>
            if p.2 ≠ 0 then Event.noteOn s.midi_channel ((p.1 : Int) + midi_offset)
            else Event.noteOff s.midi_channel ((p.1 : Int) + midi_offset)) := by
  intro ps
  induction ps with
  | nil => intro s _ _ _; rfl
  | cons p ps ih =>
    intro s h1 hcmd hps
    obtain ⟨hn, hv⟩ := hps p (List.mem_cons_self _ _)
    simp only [dataBytes, midiBytes, List.map_cons]
    rw [midiByte_note s p.1 hn h1, midiByte_velocity _ p.2 hv rfl]
    simp only [hcmd]
    rw [ih { midi_cmd := 0x90, midi_count := 1, midi_channel := s.midi_channel,
             midi_note := (p.1 : Int) + 1 } rfl rfl
          (fun q hq => hps q (List.mem_cons_of_mem _ hq))]
    by_cases h0 : p.2 = 0
    · simp [h0, midi_offset]
    · simp [h0, midi_offset]

theorem midiBytes_pairs_noteOff :
    ∀ (ps : List (Nat × Nat)) (s : MidiState), s.midi_count = 1 → s.midi_cmd = 0x80 →
      (∀ p ∈ ps, p.1 < 128 ∧ p.2 < 128) →
      (midiBytes s (dataBytes ps)).2
        = ps.map (fun p => Event.noteOff s.midi_channel ((p.1 : Int) + midi_offset)) := by
  intro ps
  induction ps with
  | nil => intro s _ _ _; rfl
  | cons p ps ih =>
    intro s h1 hcmd hps
    obtain ⟨hn, hv⟩ := hps p (List.mem_cons_self _ _)
    simp only [dataBytes, midiBytes, List.map_cons]
    rw [midiByte_note s p.1 hn h1, midiByte_velocity _ p.2 hv rfl]
    simp only [hcmd]
    rw [ih { midi_cmd := 0x80, midi_count := 1, midi_channel := s.midi_channel,
             midi_note := (p.1 : Int) + 1 } rfl rfl
          (fun q hq => hps q (List.mem_cons_of_mem _ hq))]
    simp [midi_offset]

/-- C15: after a status byte `0x90 + c` or `0x80 + c` (channel `c` in `0..15`),
a run of `2m` data bytes `n1, v1, ..., nm, vm` (each in `0..127`, no status
byte in between) makes exactly `m` organ calls, the `i`-th for channel `c` and
note `ni + 1`: after `0x90 + c` it is `noteOn` when `vi` is not zero and
`noteOff` when it is, after `0x80 + c` it is always `noteOff`. -/
theorem midi_running_status (s : MidiState) (c : Nat) (ps : List (Nat × Nat)) (hc : c < 16)
    (hps : ∀ p ∈ ps, p.1 < 128 ∧ p.2 < 128) :
    (midiBytes s ((0x90 + c) :: dataBytes ps)).2
        = ps.map (fun p =>
            if p.2 ≠ 0 then Event.noteOn (c : Int) ((p.1 : Int) + midi_offset)
            else Event.noteOff (c : Int) ((p.1 : Int) + midi_offset))
      ∧ (midiBytes s ((0x80 + c) :: dataBytes ps)).2
        = ps.map (fun p => Event.noteOff (c : Int) ((p.1 : Int) + midi_offset)) := by
  constructor
  · simp only [midiBytes, midiByte_noteOn_status s c hc, List.nil_append]
    exact midiBytes_pairs_noteOn ps _ rfl rfl hps
  · simp only [midiBytes, midiByte_noteOff_status s c hc, List.nil_append]
    exact midiBytes_pairs_noteOff ps _ rfl rfl hps

theorem midi_running_status_witness :
    (midiBytes (MidiState.init 0 0) ((0x90 + 2) :: dataBytes [(60, 100), (64, 0), (67, 1)])).2
        = [(60, 100), (64, 0), (67, 1)].map (fun p =>
            if p.2 ≠ 0 then Event.noteOn ((2 : Nat) : Int) ((p.1 : Int) + midi_offset)
            else Event.noteOff ((2 : Nat) : Int) ((p.1 : Int) + midi_offset))
      ∧ (midiBytes (MidiState.init 0 0)
            ((0x80 + 2) :: dataBytes [(60, 100), (64, 0), (67, 1)])).2
        = [(60, 100), (64, 0), (67, 1)].map
            (fun p => Event.noteOff ((2 : Nat) : Int) ((p.1 : Int) + midi_offset)) :=
  midi_running_status (MidiState.init 0 0) 2 [(60, 100), (64, 0), (67, 1)] (by decide)
    (by decide)

set_option maxRecDepth 20000 in
theorem status_byte_bits (b : Nat) (hb : b &&& 0x80 = 0x80) :
    b &&& 0x90 = 0x90 ∨ b &&& 0x90 = 0x80 := by
  have h : ∀ k : Fin 256, k.val &&& 0x80 = 0x80 →
      (k.val &&& 0x90 = 0x90 ∨ k.val &&& 0x90 = 0x80) := by decide
  have hm : b &&& 0xFF = b % 256 := Nat.and_pow_two_sub_one_eq_mod b 8
  have e1 : b &&& 0x80 = (b % 256) &&& 0x80 := by
    rw [← hm, Nat.and_assoc]; rfl
  have e2 : b &&& 0x90 = (b % 256) &&& 0x90 := by
    rw [← hm, Nat.and_assoc]; rfl
  rw [e2]
  exact h ⟨b % 256, Nat.mod_lt _ (by decide)⟩ (by rw [← e1]; exact hb)

theorem midiByte_status_agree (s t : MidiState) (b : Nat) (hb : b &&& 0x80 = 0x80) :
    (midiByte s b).2 = [] ∧ (midiByte t b).2 = []
      ∧ MidiState.Agree (midiByte s b).1 (midiByte t b).1 := by
  rcases status_byte_bits b hb with h90 | h80
  · simp [midiByte, hb, h90, MidiState.Agree]
  · simp [midiByte, hb, h80, MidiState.Agree]

theorem midiByte_agree (s t : MidiState) (b : Nat) (h : MidiState.Agree s t) :
    (midiByte s b).2 = (midiByte t b).2
      ∧ MidiState.Agree (midiByte s b).1 (midiByte t b).1 := by
  by_cases hb : b &&& 0x80 = 0x80
  · obtain ⟨h1, h2, h3⟩ := midiByte_status_agree s t b hb
    exact ⟨h1.trans h2.symm, h3⟩
  · obtain ⟨hcmd, hcount, hchan, hnote⟩ := h
    by_cases h1 : s.midi_count = 1
    · have h1t : t.midi_count = 1 := hcount ▸ h1
      simp [midiByte, hb, h1, h1t, MidiState.Agree, hcmd, hchan]
    · have h1t : ¬ t.midi_count = 1 := hcount ▸ h1
      have hn := hnote h1
      by_cases h2 : s.midi_count = 2
      · have h2t : t.midi_count = 2 := hcount ▸ h2
        simp [midiByte, hb, h1, h1t, h2, h2t, MidiState.Agree, hcmd, hchan, hn]
      · have h2t : ¬ t.midi_count = 2 := hcount ▸ h2
        simp only [midiByte, hb, h1, h1t, h2, h2t, if_false]
        exact ⟨trivial, hcmd, hcount, hchan, hnote⟩

theorem midiBytes_agree :
    ∀ (bs : List Nat) (s t : MidiState), MidiState.Agree s t →
      (midiBytes s bs).2 = (midiBytes t bs).2 := by
  intro bs
  induction bs with
  | nil => intro s t _; rfl
  | cons b bs ih =>
    intro s t h
    obtain ⟨h1, h2⟩ := midiByte_agree s t b h
    simp only [midiBytes]
    rw [h1, ih _ _ h2]

/-- C16: for any two parser states `s1`, `s2` and any byte sequence whose first
byte has the high bit set, parsing the sequence from `s1` and from `s2` makes
the same organ calls, and the first byte itself makes none: a status byte
drops whatever message was being received. -/
theorem midi_status_resynchronises (s1 s2 : MidiState) (b : Nat) (bs : List Nat)
    (hb : b &&& 0x80 = 0x80) :
    (midiBytes s1 (b :: bs)).2 = (midiBytes s2 (b :: bs)).2
      ∧ (midiByte s1 b).2 = [] ∧ (midiByte s2 b).2 = [] := by
  obtain ⟨h1, h2, h3⟩ := midiByte_status_agree s1 s2 b hb
  refine ⟨?_, h1, h2⟩
  simp only [midiBytes]
  rw [h1, h2, midiBytes_agree bs _ _ h3]

theorem midi_status_resynchronises_witness :
    (midiBytes (MidiState.init 0 0) (0x91 :: [60, 100, 62, 0])).2
        = (midiBytes ⟨0x80, 2, 5, 70⟩ (0x91 :: [60, 100, 62, 0])).2
      ∧ (midiByte (MidiState.init 0 0) 0x91).2 = [] ∧ (midiByte ⟨0x80, 2, 5, 70⟩ 0x91).2 = [] :=
  midi_status_resynchronises (MidiState.init 0 0) ⟨0x80, 2, 5, 70⟩ 0x91 [60, 100, 62, 0]
    (by decide)

/-! ## The cursors of the reverb line -/

theorem Reverb.run_joined {α : Type} [LinearOrderedField α] (N L : Nat) (g : α) (h1 : 1 ≤ L)
    (h2 : L < N) :
    ∀ (xs : List α) (d : List α) (p : Nat), d.length = N → p < L →
      ∃ r1 ys, Reverb.run (Reverb.atNat d L g p p) xs = .ok (r1, ys)
        ∧ r1.length = (L : Int) ∧ r1.delayPipe.length = N
        ∧ r1.pointerIn = (((p + xs.length) % L : Nat) : Int) ∧ r1.pointerOut = r1.pointerIn := by
  intro xs
  induction xs with
  | nil =>
    intro d p hd hp
    refine ⟨Reverb.atNat d L g p p, [], rfl, rfl, hd, ?_, rfl⟩
    rw [List.length_nil, Nat.add_zero, Nat.mod_eq_of_lt hp]
    rfl
  | cons x xs ih =>
    intro d p hd hp
    have hpd : p < d.length := by omega
    have hy := Reverb.next_atNat d L p p g x d[p] (List.getElem?_eq_getElem hpd) hpd (by omega)
    have hlt : (p + 1) % L < L := Nat.mod_lt _ (by omega)
    obtain ⟨r1, ys, hrun, e1, e2, e4, e5⟩ :=
      ih (d.set p (x + d[p] * g)) ((p + 1) % L) (by rw [List.length_set]; exact hd) hlt
    refine ⟨r1, d[p] :: ys, ?_, e1, e2, ?_, e5⟩
    · simp only [Reverb.run, hy, hrun]
    · rw [e4, List.length_cons, Nat.mod_add_mod, Nat.add_assoc, Nat.add_comm 1]

/-- The cursors of a reverb line with buffer size `N` and delay `1 <= L < N`
after any number of calls of `next`, none of which faults. -/
theorem Reverb.run_cursors {α : Type} [LinearOrderedField α] (N L : Nat) (g : α) (h1 : 1 ≤ L)
    (h2 : L < N) (xs : List α) :
    ∃ r ys, Reverb.run (Reverb.atNat (List.replicate N 0) L g 0 L) xs = .ok (r, ys)
      ∧ r.length = (L : Int) ∧ r.delayPipe.length = N
      ∧ r.pointerIn = ((xs.length % L : Nat) : Int)
      ∧ r.pointerOut = if xs = [] then (L : Int) else ((xs.length % L : Nat) : Int) := by
  cases xs with
  | nil =>
    refine ⟨_, [], rfl, rfl, List.length_replicate _ _, ?_, rfl⟩
    rw [List.length_nil, Nat.zero_mod]
    rfl
  | cons x xs =>
    have hq : (List.replicate N (0 : α))[L]? = some 0 := by
      rw [List.getElem?_replicate, if_pos h2]
    have hy := Reverb.next_atNat (List.replicate N 0) L 0 L g x 0 hq
      (by rw [List.length_replicate]; omega) (by omega)
    rw [Nat.add_mod_left, Nat.zero_add] at hy
    have hlt : 1 % L < L := Nat.mod_lt _ (by omega)
    obtain ⟨r1, ys, hrun, e1, e2, e4, e5⟩ :=
      Reverb.run_joined N L g h1 h2 xs ((List.replicate N 0).set 0 (x + 0 * g)) (1 % L)
        (by rw [List.length_set, List.length_replicate]) hlt
    have hmod : (1 % L + xs.length) % L = (xs.length + 1) % L := by
      rw [Nat.mod_add_mod, Nat.add_comm]
    refine ⟨r1, 0 :: ys, ?_, e1, e2, ?_, ?_⟩
    · simp only [Reverb.run, hy, hrun]
    · rw [e4, List.length_cons, hmod]
    · rw [e5, e4, if_neg (List.cons_ne_nil _ _), List.length_cons, hmod]

/-- C17, the claim refuted: after a single `next()` on `Reverb(3, 0.5)` both
cursors are at position `1`; the read cursor is not `3` positions ahead of the
write cursor modulo `32768`. -/
theorem reverb_cursors_coincide_after_one_call :
    ∃ (r : Reverb ℚ) (y : ℚ), Reverb.next (Reverb.ctor 3 (1 / 2)) 1 = .ok (r, y)
      ∧ r.pointerIn = 1 ∧ r.pointerOut = 1
      ∧ r.pointerOut ≠ (r.pointerIn + 3) % 32768 :=
  ⟨Reverb.ringing 32768 3 (1 / 2) 1, 0,
    Reverb.next_blank_impulse 32768 3 (1 / 2 : ℚ) (by decide) (by decide), rfl, rfl, by decide⟩

/-- C17 as amended: for `1 <= L < 32768` every sequence of `next()` calls on a
fresh `Reverb(L, g)` runs without fault. In the fresh state the read cursor is
`L` positions ahead of the write cursor (`pointerIn = 0`, `pointerOut = L`);
after `t >= 1` calls both cursors are equal, at `t mod L`: they advance modulo
the delay length `L`, not modulo the buffer capacity. -/
theorem reverb_cursors_meet {α : Type} [LinearOrderedField α] (L : Nat) (g : α)
    (h1 : 1 ≤ L) (h2 : L < 32768) (xs : List α) :
    ∃ (r : Reverb α) (ys : List α), Reverb.run (Reverb.ctor L g) xs = .ok (r, ys)
      ∧ r.pointerIn = xs.length % L
      ∧ (xs = [] → r.pointerOut = r.pointerIn + L)
      ∧ (xs ≠ [] → r.pointerOut = r.pointerIn) := by
  obtain ⟨r, ys, hrun, _, _, hin, hout⟩ := Reverb.run_cursors 32768 L g h1 h2 xs
  refine ⟨r, ys, hrun, ?_, fun he => ?_, fun hne => ?_⟩
  · rw [hin, Int.ofNat_emod]
  · rw [hout, if_pos he, hin, he, List.length_nil, Nat.zero_mod]
    simp
  · rw [hout, if_neg hne, hin]

theorem reverb_cursors_meet_witness :
    ∃ (r : Reverb ℚ) (ys : List ℚ), Reverb.run (Reverb.ctor 3 (1 / 2)) [1, 0, 0, 0] = .ok (r, ys)
      ∧ r.pointerIn = ([1, 0, 0, 0] : List ℚ).length % 3
      ∧ (([1, 0, 0, 0] : List ℚ) = [] → r.pointerOut = r.pointerIn + 3)
      ∧ (([1, 0, 0, 0] : List ℚ) ≠ [] → r.pointerOut = r.pointerIn) :=
  reverb_cursors_meet 3 (1 / 2 : ℚ) (by decide) (by decide) [1, 0, 0, 0]

/-- C20: for `1 <= L < 32768`, every sequence of `next()` calls on a fresh
`Reverb(L, g)` runs without fault (no read or write outside the buffer of
32768 samples, no remainder by zero), and in the state reached both cursors
lie in `0..L`, and in `0..L-1` once `next()` has been called. -/
theorem reverb_cursors_in_range {α : Type} [LinearOrderedField α] (L : Nat) (g : α)
    (h1 : 1 ≤ L) (h2 : L < 32768) (xs : List α) :
    ∃ (r : Reverb α) (ys : List α), Reverb.run (Reverb.ctor L g) xs = .ok (r, ys)
      ∧ r.length = L ∧ r.length ≠ 0 ∧ r.delayPipe.length = 32768
      ∧ 0 ≤ r.pointerIn ∧ 0 ≤ r.pointerOut
      ∧ r.pointerIn ≤ L ∧ r.pointerOut ≤ L
      ∧ r.pointerIn < r.delayPipe.length ∧ r.pointerOut < r.delayPipe.length
      ∧ (xs ≠ [] → r.pointerIn < L ∧ r.pointerOut < L) := by
  obtain ⟨r, ys, hrun, hl, hn, hin, hout⟩ := Reverb.run_cursors 32768 L g h1 h2 xs
  have hm : xs.length % L < L := Nat.mod_lt _ (by omega)
  have ho : 0 ≤ r.pointerOut ∧ r.pointerOut ≤ L := by
    rw [hout]; split <;> omega
  refine ⟨r, ys, hrun, hl, by omega, hn, by omega, ho.1, by omega, ho.2, by omega, by omega,
    fun hne => ?_⟩
  rw [hout, if_neg hne, hin]
  exact ⟨by exact_mod_cast hm, by exact_mod_cast hm⟩

theorem reverb_cursors_in_range_witness :
    ∃ (r : Reverb ℚ) (ys : List ℚ), Reverb.run (Reverb.ctor 3 (1 / 2)) [1, 0, 0, 0] = .ok (r, ys)
      ∧ r.length = 3 ∧ r.length ≠ 0 ∧ r.delayPipe.length = 32768
      ∧ 0 ≤ r.pointerIn ∧ 0 ≤ r.pointerOut
      ∧ r.pointerIn ≤ 3 ∧ r.pointerOut ≤ 3
      ∧ r.pointerIn < r.delayPipe.length ∧ r.pointerOut < r.delayPipe.length
      ∧ (([1, 0, 0, 0] : List ℚ) ≠ [] → r.pointerIn < 3 ∧ r.pointerOut < 3) :=
  reverb_cursors_in_range 3 (1 / 2 : ℚ) (by decide) (by decide) [1, 0, 0, 0]

/-! ## The assigned note of a voice -/

theorem Voice.steps_note {α : Type} [LinearOrderedField α] (lm : Libm α) :
    ∀ (ops : List (VoiceOp α)) (played : Bool) (v : Voice α),
      (played = false → v.note = -1 ∧ v.volume = 0 ∧ v.ampl = 0) →
      (played = true → v.note ≠ -1) →
      VoiceOp.organUse played ops = true →
      ((played || VoiceOp.anyPlay ops) = false →
          (Voice.steps lm v ops).note = -1 ∧ (Voice.steps lm v ops).volume = 0
            ∧ (Voice.steps lm v ops).ampl = 0)
        ∧ ((played || VoiceOp.anyPlay ops) = true → (Voice.steps lm v ops).note ≠ -1) := by
  intro ops
  induction ops with
  | nil =>
    intro played v h1 h2 _
    simp only [VoiceOp.anyPlay, Bool.or_false, Voice.steps]
    exact ⟨h1, h2⟩
  | cons op ops ih =>
    intro played v h1 h2 hu
    cases op with
    | play ch n f =>
      simp only [VoiceOp.organUse, Bool.and_eq_true, decide_eq_true_eq] at hu
      have := ih true (v.play lm ch n f) (fun h => by cases h) (fun _ => hu.1) hu.2
      simpa only [VoiceOp.anyPlay, Bool.or_true, Bool.true_or, Voice.steps, Voice.step] using this
    | reTrig =>
      simp only [VoiceOp.organUse, Bool.and_eq_true] at hu
      have hp : played = true := hu.1
      subst hp
      have := ih true v.reTrig (fun h => by cases h) (fun _ => h2 rfl) hu.2
      simpa only [VoiceOp.anyPlay, Voice.steps, Voice.step] using this
    | rel =>
      simp only [VoiceOp.organUse] at hu
      have := ih played v.rel
        (fun h => ⟨(h1 h).1, rfl, (h1 h).2.2⟩) h2 hu
      simpa only [VoiceOp.anyPlay, Voice.steps, Voice.step] using this
    | next =>
      simp only [VoiceOp.organUse] at hu
      have := ih played v.next.1
        (fun h => by
          obtain ⟨e1, e2, e3⟩ := h1 h
          obtain ⟨f1, _, f3⟩ := Voice.next_released v e2
          rw [e3, if_neg (lt_irrefl 0)] at f3
          exact ⟨e1, f1, f3⟩)
        h2 hu
      simpa only [VoiceOp.anyPlay, Voice.steps, Voice.step] using this

/-- C18, the claim refuted: a voice that is played and then released before
any `next()` has note `60`, not `-1`, while its target volume and its
amplitude are both `0`; and a fresh voice that is retriggered has target
volume `1` while its note is `-1`. -/
theorem voice_note_not_tied_to_envelope :
    ¬ ((Voice.steps demoLibm (Voice.ctor demoLibm zeroVoice) [.play 0 60 440, .rel]).note ≠ -1
        ↔ ((Voice.steps demoLibm (Voice.ctor demoLibm zeroVoice) [.play 0 60 440, .rel]).volume ≠ 0
          ∨ (Voice.steps demoLibm (Voice.ctor demoLibm zeroVoice) [.play 0 60 440, .rel]).ampl
              ≠ 0))
      ∧ ¬ ((Voice.steps demoLibm (Voice.ctor demoLibm zeroVoice) [.reTrig]).note ≠ -1
        ↔ ((Voice.steps demoLibm (Voice.ctor demoLibm zeroVoice) [.reTrig]).volume ≠ 0
          ∨ (Voice.steps demoLibm (Voice.ctor demoLibm zeroVoice) [.reTrig]).ampl ≠ 0)) := by
  constructor
  · intro h
    have h1 := h.mp (by decide)
    revert h1
    decide
  · intro h
    have h1 := h.mpr (Or.inl (by decide))
    revert h1
    decide

/-- C18 as amended: in every voice state reached from construction by
`play()` with a note other than `-1`, `rel()`, `next()`, and `reTrig()` only
after a `play()` (the way `Organ` calls a voice for real notes), the note
differs from `-1` exactly when `play()` has been called, and a voice that is
sounding or releasing (target volume or amplitude nonzero) has a note other
than `-1`. No call resets the note, so the converse does not hold. -/
theorem voice_note_assigned_once_played {α : Type} [LinearOrderedField α] (lm : Libm α)
    (mem : Voice α) (ops : List (VoiceOp α)) (hu : VoiceOp.organUse false ops = true) :
    ((Voice.steps lm (Voice.ctor lm mem) ops).note ≠ -1 ↔ VoiceOp.anyPlay ops = true)
      ∧ (((Voice.steps lm (Voice.ctor lm mem) ops).volume ≠ 0
            ∨ (Voice.steps lm (Voice.ctor lm mem) ops).ampl ≠ 0) →
          (Voice.steps lm (Voice.ctor lm mem) ops).note ≠ -1) := by
  obtain ⟨h1, h2⟩ := Voice.steps_note lm ops false (Voice.ctor lm mem)
    (fun _ => ⟨rfl, rfl, rfl⟩) (fun h => by cases h) hu
  simp only [Bool.false_or] at h1 h2
  cases hp : VoiceOp.anyPlay ops with
  | true =>
    have hn := h2 hp
    exact ⟨⟨fun _ => rfl, fun _ => hn⟩, fun _ => hn⟩
  | false =>
    obtain ⟨e1, e2, e3⟩ := h1 hp
    refine ⟨⟨fun hn => absurd e1 hn, fun h => by cases h⟩, fun h => ?_⟩
    rcases h with h | h
    · exact absurd e2 h
    · exact absurd e3 h

theorem voice_note_assigned_once_played_witness :
    ((Voice.steps demoLibm (Voice.ctor demoLibm zeroVoice)
          [.next, .play 0 60 440, .next, .reTrig, .rel, .next]).note ≠ -1
        ↔ VoiceOp.anyPlay
            ([.next, .play 0 60 440, .next, .reTrig, .rel, .next] : List (VoiceOp ℚ)) = true)
      ∧ (((Voice.steps demoLibm (Voice.ctor demoLibm zeroVoice)
              [.next, .play 0 60 440, .next, .reTrig, .rel, .next]).volume ≠ 0
            ∨ (Voice.steps demoLibm (Voice.ctor demoLibm zeroVoice)
              [.next, .play 0 60 440, .next, .reTrig, .rel, .next]).ampl ≠ 0) →
          (Voice.steps demoLibm (Voice.ctor demoLibm zeroVoice)
              [.next, .play 0 60 440, .next, .reTrig, .rel, .next]).note ≠ -1) :=
  voice_note_assigned_once_played demoLibm zeroVoice
    [.next, .play 0 60 440, .next, .reTrig, .rel, .next] rfl

/-! ## No note on two slots -/

theorem Organ.calls_reachable {α : Type} [LinearOrderedField α] (lm : Libm α) (g : Globals α) :
    ∀ (cs : List OrganCall) (o o1 : Organ α), Organ.Reachable lm g o →
      Organ.calls lm g o cs = .ok o1 → Organ.Reachable lm g o1 := by
  intro cs
  induction cs with
  | nil =>
    intro o o1 hr h
    simp only [Organ.calls] at h
    rw [← Except.ok.inj h]
    exact hr
  | cons c cs ih =>
    intro o o1 hr h
    cases c with
    | noteOn ch n =>
      simp only [Organ.calls] at h
      cases hc : Organ.noteOn lm g o ch n with
      | error e => rw [hc] at h; cases h
      | ok o2 =>
        rw [hc] at h
        exact ih o2 o1 (Organ.Reachable.noteOn ch n hr hc) h
    | noteOff ch n =>
      simp only [Organ.calls] at h
      cases hc : Organ.noteOff o ch n with
      | error e => rw [hc] at h; cases h
      | ok o2 =>
        rw [hc] at h
        exact ih o2 o1 (Organ.Reachable.noteOff ch n hr hc) h

theorem Organ.noteOn_total {α : Type} [LinearOrderedField α] (lm : Libm α) (g : Globals α)
    (o : Organ α) (hp : o.theArbiter.resources.Perm (List.range 10)) (ch n : Int)
    (hn : 0 ≤ n ∧ n < 96) : ∃ o1, Organ.noteOn lm g o ch n = .ok o1 := by
  rcases Organ.scan_cases o.voices ch n with ⟨hno, _⟩ | ⟨p, _, _, hs⟩
  · have hk : ((⟨n.toNat, by omega⟩ : Fin 96).val : Int) = n := by simp only []; omega
    exact ⟨_, Organ.noteOn_noMatch lm g o ch n hno ⟨n.toNat, by omega⟩ hk
      ⟨_, Arbiter.head_lt _ hp⟩ rfl⟩
  · exact ⟨_, Organ.noteOn_match lm g o ch n p hs⟩

theorem Organ.noteOff_total {α : Type} [LinearOrderedField α] (o : Organ α) (ch n : Int)
    (i : Fin 10) (hi : (o.voices i).note = n ∧ (o.voices i).channel = ch) :
    ∃ o1, Organ.noteOff o ch n = .ok o1 := by
  rcases Organ.scan_cases o.voices ch n with ⟨hno, _⟩ | ⟨p, _, _, hs⟩
  · exact absurd hi (hno i)
  · exact ⟨_, Organ.noteOff_match o ch n p hs⟩

/-- C19: in every organ state reached from construction by a sequence of
`noteOn` and `noteOff` calls that all run without fault, no two distinct voice
slots with a note other than `-1` hold the same `(channel, note)` pair. From
such a state every `noteOn` with a note in `0..95` and every `noteOff` whose
pair is held by some slot runs without fault, so the sequences of the claim
(notes in `0..95`, each `noteOff` matching a slot) are all covered. -/
theorem organ_note_on_one_slot {α : Type} [LinearOrderedField α] (lm : Libm α) (g : Globals α)
    (mem : Fin 10 → Voice α) (cs : List OrganCall) (o : Organ α)
    (h : Organ.calls lm g (Organ.ctor lm g mem) cs = .ok o) :
    (∀ i j : Fin 10, i ≠ j → (o.voices i).note ≠ -1 → (o.voices j).note ≠ -1 →
        ¬ ((o.voices i).channel = (o.voices j).channel ∧ (o.voices i).note = (o.voices j).note))
      ∧ (∀ ch n : Int, 0 ≤ n ∧ n < 96 → ∃ o1, Organ.noteOn lm g o ch n = .ok o1)
      ∧ (∀ (ch n : Int) (i : Fin 10), (o.voices i).note = n ∧ (o.voices i).channel = ch →
          ∃ o1, Organ.noteOff o ch n = .ok o1) := by
  have hr := Organ.calls_reachable lm g cs _ o (Organ.Reachable.ctor mem) h
  obtain ⟨hp, hd⟩ := Organ.reachable_inv lm g o hr
  refine ⟨fun i j hij hi _ hsame => hij (hd i j hi hsame.2 hsame.1),
    fun ch n hn => Organ.noteOn_total lm g o hp ch n hn,
    fun ch n i hi => Organ.noteOff_total o ch n i hi⟩

theorem organ_note_on_one_slot_witness :
    (∀ i j : Fin 10, i ≠ j → (demoOrgan1.voices i).note ≠ -1 → (demoOrgan1.voices j).note ≠ -1 →
        ¬ ((demoOrgan1.voices i).channel = (demoOrgan1.voices j).channel
          ∧ (demoOrgan1.voices i).note = (demoOrgan1.voices j).note))
      ∧ (∀ ch n : Int, 0 ≤ n ∧ n < 96 →
          ∃ o1, Organ.noteOn demoLibm (Globals.init demoLibm) demoOrgan1 ch n = .ok o1)
      ∧ (∀ (ch n : Int) (i : Fin 10),
          (demoOrgan1.voices i).note = n ∧ (demoOrgan1.voices i).channel = ch →
          ∃ o1, Organ.noteOff demoOrgan1 ch n = .ok o1) :=
  organ_note_on_one_slot demoLibm (Globals.init demoLibm) (fun _ => zeroVoice)
    [OrganCall.noteOn 0 60] demoOrgan1 rfl

end GMiniOrgan
